import Mathlib

/-!
# A verification model of `workflow-database`

This file embeds the `workflow-database` package (a small JSON-file document
store) and the parts of its `workflow-data` dependency that it uses, and
proves properties of the embedding.

Modelling conventions:
* JavaScript values are modelled by the inductive type `JVal`.  JSON numbers
  are modelled as integers (`Int`); floating point values are outside the
  model.  The extra constructor `JVal.undefined` models JavaScript `undefined`
  (the result of reading a missing property).
* JavaScript objects are modelled as association lists of fields in
  insertion order.  Real JavaScript objects never carry duplicate keys, so
  statements about objects assume key `Nodup` where it matters.
* `===` (strict equality) on primitives is structural; on objects and arrays
  it is reference identity.  Separately constructed composite values are
  never identical in the modelled usage (filters come from the caller, data
  from `JSON.parse`), so `jsEq` returns `false` on composites.
* The random source behind `crypto.getRandomValues` is modelled by passing
  the produced bytes explicitly as arguments.
* The filesystem is modelled as an association list from path to file
  content; each database operation returns the list of collection-file
  accesses it performed, so that "touches the filesystem" is observable.
-/

/-- JavaScript/JSON values: `null`, `undefined`, booleans, (integer) numbers,
strings, arrays and plain objects (fields in insertion order). -/
inductive JVal where
  | null : JVal
  | undefined : JVal
  | bool : Bool → JVal
  | num : Int → JVal
  | str : String → JVal
  | arr : List JVal → JVal
  | obj : List (String × JVal) → JVal

/-- JavaScript truthiness: `undefined`, `null`, `false`, `0` and `""` are
falsy; every other modelled value is truthy. -/
def truthy : JVal → Bool
  | .undefined => false
  | .null => false
  | .bool b => b
  | .num n => n != 0
  | .str s => s != ""
  | .arr _ => true
  | .obj _ => true

/-- Property access `v[k]`: the first binding of `k` in an object, and
`undefined` for a missing key or a non-object base (the model ignores
built-in properties of primitives and arrays, which no modelled operation
consults). -/
def getProp (v : JVal) (k : String) : JVal :=
  match v with
  | .obj fields =>
    match fields.find? (fun p => p.1 == k) with
    | some p => p.2
    | none => .undefined
  | _ => .undefined

/-- JavaScript strict equality `===` restricted to the model: structural on
primitives, `false` on composites (reference identity never holds between
the separately constructed composites that reach a comparison here). -/
def jsEq : JVal → JVal → Bool
  | .null, .null => true
  | .undefined, .undefined => true
  | .bool a, .bool b => a == b
  | .num a, .num b => a == b
  | .str a, .str b => a == b
  | _, _ => false

/-- Property assignment `o[k] = v` on a field list: overwrite in place if the
key is present, append otherwise. -/
def setKey (fields : List (String × JVal)) (k : String) (v : JVal) :
    List (String × JVal) :=
  if fields.any (fun p => p.1 == k) then
    fields.map (fun p => if p.1 == k then (p.1, v) else p)
  else fields ++ [(k, v)]

/-- `Object.assign(target, updates)` on field lists: assign each update field
in order. -/
def assignFields (target : List (String × JVal)) (updates : List (String × JVal)) :
    List (String × JVal) :=
  updates.foldl (fun acc p => setKey acc p.1 p.2) target

/-- `Object.assign(obj, updates)` as used by `workflow-data`'s `update`: a
plain object is mutated field by field; a primitive target is boxed by
JavaScript and the array slot keeps the original value, so the model returns
it unchanged. -/
def assignVal (o : JVal) (updates : List (String × JVal)) : JVal :=
  match o with
  | .obj fields => .obj (assignFields fields updates)
  | other => other

/-- One key of `workflow-data`'s `matches`: an array criterion means
membership via `includes` (SameValueZero, which coincides with `===` on the
NaN-free model), anything else means `===`. -/
def matchesKey (o : JVal) (k : String) (fv : JVal) : Bool :=
  match fv with
  | .arr vs => vs.any (fun w => jsEq (getProp o k) w)
  | _ => jsEq (getProp o k) fv

/-- `matches(obj, criteria)` from `workflow-data`: every key of the criteria
object must match (vacuously true for the empty criteria). -/
def wmatches (o : JVal) (criteria : List (String × JVal)) : Bool :=
  criteria.all (fun p => matchesKey o p.1 p.2)

/-- Errors surfaced by the modelled code.  `collectionError` stands for the
`throw CollectionError` sites in `Database` (at runtime a `ReferenceError`,
since the identifier is never defined); `typeError` carries the message of a
thrown `TypeError`. -/
inductive JsError where
  | collectionError : JsError
  | typeError : String → JsError
deriving DecidableEq

/-- `filter(data, criteria)` from `workflow-data`: throws a `TypeError` when
`data` is not an array, otherwise keeps the matching elements in order.  (The
criteria argument is an object by the typing of the model, so its non-null
object check always passes.) -/
def wfilter (data : JVal) (criteria : List (String × JVal)) :
    Except JsError (List JVal) :=
  match data with
  | .arr xs => .ok (xs.filter (fun o => wmatches o criteria))
  | _ => .error (.typeError "filter: data must be an array.")

/-- `update(data, criteria, updates)` from `workflow-data`: checks that
`data` is an array and `updates` a non-null `typeof "object"` value (plain
objects and arrays both pass; an array's own enumerable properties are its
indices as string keys), then `Object.assign`s every matching element. -/
def wupdate (data : JVal) (criteria : List (String × JVal)) (updates : JVal) :
    Except JsError JVal :=
  match data with
  | .arr xs =>
    match updates with
    | .obj ufields =>
      .ok (.arr (xs.map (fun o => if wmatches o criteria then assignVal o ufields else o)))
    | .arr uelems =>
      .ok (.arr (xs.map (fun o =>
        if wmatches o criteria then
          assignVal o (uelems.enum.map (fun p => (toString p.1, p.2)))
        else o)))
    | _ => .error (.typeError "update: updates parameter must be a non-null object.")
  | _ => .error (.typeError "update: data must be an array.")

/-- `erase(data, criteria)` from `workflow-data`: removes every matching
element, iterating from the last index down (modelled by a right fold, which
performs exactly those removals). -/
def werase (data : JVal) (criteria : List (String × JVal)) :
    Except JsError JVal :=
  match data with
  | .arr xs =>
    .ok (.arr (xs.foldr (fun o acc => if wmatches o criteria then acc else o :: acc) []))
  | _ => .error (.typeError "erase: data must be an array.")

/-- `c` is an ASCII letter (`A`-`Z` or `a`-`z`). -/
def isAsciiLetter (c : Char) : Bool :=
  ('A' ≤ c && c ≤ 'Z') || ('a' ≤ c && c ≤ 'z')

/-- `validateAlphabetical(str)` from `database`: the regular expression test
`/^[A-Za-z]+$/.test(str)`, i.e. non-empty and every character an ASCII
letter. -/
def validateAlphabetical (s : String) : Bool :=
  !s.isEmpty && s.data.all isAsciiLetter

/-- Lowercase hexadecimal digit for `n < 16`, as produced by
`Number.prototype.toString(16)`. -/
def hexChar (n : Nat) : Char :=
  Char.ofNat (if n < 10 then 48 + n else 87 + n)

/-- `byte.toString(16).padStart(2, "0")` for a byte value. -/
def byteToHex (b : Nat) : List Char :=
  [hexChar (b / 16), hexChar (b % 16)]

/-- `randomHex(bytes)` from `database`, with the bytes produced by
`crypto.getRandomValues` passed explicitly: two lowercase hex characters per
byte, concatenated. -/
def randomHex (bytes : List (Fin 256)) : String :=
  String.mk ((bytes.map (fun b => byteToHex b.val)).flatten)

/-- `validateDoc(document)` from `database`, with the random bytes for a
fresh identifier passed explicitly: throws a `TypeError` unless the argument
is a plain object; assigns `_id = randomHex(8)` when `_id` is absent or
falsy; returns the document. -/
def validateDoc (rnd : List (Fin 256)) (document : JVal) : Except JsError JVal :=
  match document with
  | .obj fields =>
    if truthy (getProp (.obj fields) "_id") then .ok (.obj fields)
    else .ok (.obj (setKey fields "_id" (.str (randomHex rnd))))
  | _ => .error (.typeError "Failed to validate document, received a non-object value.")

/-- The inline check of `Database.insertOne`: `typeof document === "object"`,
not `null`, not an array — exactly the plain objects of the model. -/
def isPlainObject : JVal → Bool
  | .obj _ => true
  | _ => false

/-- The element check of `Database.insertMany`: `typeof document ===
"object" && document !== null` — plain objects and arrays both pass. -/
def isObjectLike : JVal → Bool
  | .obj _ => true
  | .arr _ => true
  | _ => false

/-- `data.push(document)`: appends when `data` is an array; on any other
parsed value `push` is not a function and a `TypeError` is thrown. -/
def jsPush (data : JVal) (v : JVal) : Except JsError JVal :=
  match data with
  | .arr xs => .ok (.arr (xs ++ [v]))
  | _ => .error (.typeError "data.push is not a function")

/-- The value is JavaScript `undefined`. -/
def isUndef : JVal → Bool
  | .undefined => true
  | _ => false

/-- `n` spaces, the indentation unit of `JSON.stringify(data, null, 2)`. -/
def nspaces (n : Nat) : List Char :=
  List.replicate n ' '

/-- Decimal digit character for `d < 10`. -/
def digitChar (d : Nat) : Char :=
  Char.ofNat (48 + d)

/-- Decimal representation of a natural number, as printed by
`JSON.stringify`. -/
def natChars (m : Nat) : List Char :=
  if m = 0 then ['0'] else ((Nat.digits 10 m).map digitChar).reverse

/-- Decimal representation of an integer. -/
def intChars (n : Int) : List Char :=
  if n < 0 then '-' :: natChars n.natAbs else natChars n.toNat

/-- The escape `JSON.stringify` applies to one string character: `"` and `\`
are backslash-escaped, the five named control characters use their short
escapes, the remaining control characters use `\u00XX` with lowercase hex,
and everything else is emitted verbatim. -/
def escapeChar (c : Char) : List Char :=
  if c = '"' then ['\\', '"']
  else if c = '\\' then ['\\', '\\']
  else if c = Char.ofNat 8 then ['\\', 'b']
  else if c = Char.ofNat 9 then ['\\', 't']
  else if c = Char.ofNat 10 then ['\\', 'n']
  else if c = Char.ofNat 12 then ['\\', 'f']
  else if c = Char.ofNat 13 then ['\\', 'r']
  else if c.toNat < 32 then ['\\', 'u', '0', '0', hexChar (c.toNat / 16), hexChar (c.toNat % 16)]
  else [c]

/-- The body of a JSON string literal for `s`. -/
def escapeString (s : String) : List Char :=
  (s.data.map escapeChar).flatten

/-- A JSON string literal for `s`, including the surrounding quotes. -/
def quoteString (s : String) : List Char :=
  '"' :: (escapeString s ++ ['"'])

/-- Auxiliary bound: filtering cannot increase the `sizeOf` of a list. -/
theorem sizeOf_filter_le {α : Type} [SizeOf α] (p : α → Bool) (l : List α) :
    sizeOf (l.filter p) ≤ sizeOf l := by
  induction l with
  | nil => simp [List.filter]
  | cons a t ih =>
    simp only [List.filter_cons]
    split <;> simp <;> omega

mutual

/-- The value is representable in JSON: it contains no `undefined` anywhere
(`JSON.stringify` drops or rewrites `undefined`). -/
def repOk : JVal → Bool
  | .null => true
  | .undefined => false
  | .bool _ => true
  | .num _ => true
  | .str _ => true
  | .arr xs => repOkItems xs
  | .obj fields => repOkFields fields

/-- All array elements are representable. -/
def repOkItems : List JVal → Bool
  | [] => true
  | x :: xs => repOk x && repOkItems xs

/-- All object field values are representable. -/
def repOkFields : List (String × JVal) → Bool
  | [] => true
  | p :: rest => repOk p.2 && repOkFields rest

end

mutual

/-- Fuel needed by the JSON parser for a value. -/
def needVal : JVal → Nat
  | .null => 1
  | .undefined => 1
  | .bool _ => 1
  | .num _ => 1
  | .str _ => 1
  | .arr [] => 1
  | .arr (x :: xs) => 1 + needItems (x :: xs)
  | .obj [] => 1
  | .obj (p :: rest) => 1 + needFields (p :: rest)

/-- Fuel needed by the parser loop for array items. -/
def needItems : List JVal → Nat
  | [] => 0
  | x :: xs => 1 + needVal x + needItems xs

/-- Fuel needed by the parser loop for object fields. -/
def needFields : List (String × JVal) → Nat
  | [] => 0
  | p :: rest => 1 + needVal p.2 + needFields rest

end

mutual

/-- `JSON.stringify(v, null, 2)` at context indentation `ind`: the character
list of the pretty-printed JSON text.  `undefined` prints as `null` (its
treatment inside arrays; object fields holding `undefined` are dropped
before printing, and a top-level `undefined` never reaches the file in the
modelled operations). -/
def printVal (ind : Nat) (v : JVal) : List Char :=
  match v with
  | .null => ['n', 'u', 'l', 'l']
  | .undefined => ['n', 'u', 'l', 'l']
  | .bool true => 't' :: 'r' :: ['u', 'e']
  | .bool false => ['f', 'a', 'l', 's', 'e']
  | .num n => intChars n
  | .str s => quoteString s
  | .arr [] => ['[', ']']
  | .arr (x :: xs) =>
    '[' :: '\n' :: (printItems (ind + 2) (x :: xs) ++ '\n' :: (nspaces ind ++ [']']))
  | .obj fields =>
    match h : fields.filter (fun p => !isUndef p.2) with
    | [] => ['{', '}']
    | q :: kept =>
      '{' :: '\n' :: (printFields (ind + 2) (q :: kept) ++ '\n' :: (nspaces ind ++ ['}']))
termination_by sizeOf v
decreasing_by
  all_goals simp_wf
  all_goals try omega
  all_goals
    (have hle := sizeOf_filter_le (fun p => !isUndef p.2) fields
     rw [h] at hle
     simp only [List.cons.sizeOf_spec] at hle ⊢
     omega)

/-- Array items, one per line at indentation `ind`, separated by `,`. -/
def printItems (ind : Nat) (l : List JVal) : List Char :=
  match l with
  | [] => []
  | [x] => nspaces ind ++ printVal ind x
  | x :: y :: rest =>
    nspaces ind ++ (printVal ind x ++ ',' :: '\n' :: printItems ind (y :: rest))
termination_by sizeOf l
decreasing_by
  all_goals simp_wf <;> omega

/-- Object fields, one `"key": value` per line at indentation `ind`,
separated by `,`. -/
def printFields (ind : Nat) (l : List (String × JVal)) : List Char :=
  match l with
  | [] => []
  | [(k, v)] => nspaces ind ++ (quoteString k ++ ':' :: ' ' :: printVal ind v)
  | (k, v) :: q :: rest =>
    nspaces ind ++
      (quoteString k ++ ':' :: ' ' :: (printVal ind v ++ ',' :: '\n' :: printFields ind (q :: rest)))
termination_by sizeOf l
decreasing_by
  all_goals simp_wf <;> omega

end

/-- `JSON.stringify(v, null, 2)` as a string. -/
def stringify (v : JVal) : String :=
  String.mk (printVal 0 v)

/-- JSON whitespace. -/
def isWs (c : Char) : Bool :=
  c = ' ' || c = Char.ofNat 10 || c = Char.ofNat 9 || c = Char.ofNat 13

/-- Skip leading JSON whitespace. -/
def skipWs : List Char → List Char
  | [] => []
  | c :: r => if isWs c then skipWs r else c :: r

/-- ASCII decimal digit test. -/
def isDigitChar (c : Char) : Bool :=
  48 ≤ c.toNat && c.toNat ≤ 57

/-- Greedily consume decimal digits, accumulating their value. -/
def parseDigitsLoop (acc : Nat) : List Char → Nat × List Char
  | [] => (acc, [])
  | c :: r =>
    if isDigitChar c then parseDigitsLoop (acc * 10 + (c.toNat - 48)) r
    else (acc, c :: r)

/-- Parse a JSON natural-number literal (no leading zeros except `0`
itself). -/
def parseNat : List Char → Option (Nat × List Char)
  | [] => none
  | c :: r =>
    if c = '0' then some (0, r)
    else if isDigitChar c then some (parseDigitsLoop (c.toNat - 48) r)
    else none

/-- Hexadecimal digit value. -/
def hexVal (c : Char) : Option Nat :=
  if 48 ≤ c.toNat && c.toNat ≤ 57 then some (c.toNat - 48)
  else if 97 ≤ c.toNat && c.toNat ≤ 102 then some (c.toNat - 87)
  else if 65 ≤ c.toNat && c.toNat ≤ 70 then some (c.toNat - 55)
  else none

/-- Parse the body of a JSON string literal (after the opening quote),
accumulating characters in reverse; handles the standard escapes. -/
def parseStringGo (acc : List Char) : List Char → Option (String × List Char)
  | [] => none
  | c :: r =>
    if c = '"' then some (String.mk acc.reverse, r)
    else if c = '\\' then
      match r with
      | [] => none
      | e :: r2 =>
        if e = '"' then parseStringGo ('"' :: acc) r2
        else if e = '\\' then parseStringGo ('\\' :: acc) r2
        else if e = '/' then parseStringGo ('/' :: acc) r2
        else if e = 'b' then parseStringGo (Char.ofNat 8 :: acc) r2
        else if e = 'f' then parseStringGo (Char.ofNat 12 :: acc) r2
        else if e = 'n' then parseStringGo (Char.ofNat 10 :: acc) r2
        else if e = 'r' then parseStringGo (Char.ofNat 13 :: acc) r2
        else if e = 't' then parseStringGo (Char.ofNat 9 :: acc) r2
        else if e = 'u' then
          match r2 with
          | h1 :: h2 :: h3 :: h4 :: r3 =>
            match hexVal h1, hexVal h2, hexVal h3, hexVal h4 with
            | some a, some b, some c3, some d =>
              parseStringGo (Char.ofNat (((a * 16 + b) * 16 + c3) * 16 + d) :: acc) r3
            | _, _, _, _ => none
          | _ => none
        else none
    else parseStringGo (c :: acc) r

mutual

/-- A fuel-indexed model of `JSON.parse` on character lists: parse one JSON
value, returning the value and the unconsumed suffix. -/
def parseVal : Nat → List Char → Option (JVal × List Char)
  | 0, _ => none
  | fuel + 1, cs =>
    match skipWs cs with
    | [] => none
    | c :: r =>
      if c = 'n' then
        match r with
        | 'u' :: 'l' :: 'l' :: r2 => some (.null, r2)
        | _ => none
      else if c = 't' then
        match r with
        | 'r' :: 'u' :: 'e' :: r2 => some (.bool true, r2)
        | _ => none
      else if c = 'f' then
        match r with
        | 'a' :: 'l' :: 's' :: 'e' :: r2 => some (.bool false, r2)
        | _ => none
      else if c = '"' then
        match parseStringGo [] r with
        | some (s, r2) => some (.str s, r2)
        | none => none
      else if c = '[' then
        match skipWs r with
        | x :: t2 =>
          if x = ']' then some (.arr [], t2)
          else
            match parseItemsLoop fuel r with
            | some (vs, r2) => some (.arr vs, r2)
            | none => none
        | [] => none
      else if c = '{' then
        match skipWs r with
        | x :: t2 =>
          if x = '\x7d' then some (.obj [], t2)
          else
            match parseFieldsLoop fuel r with
            | some (fs, r2) => some (.obj fs, r2)
            | none => none
        | [] => none
      else if c = '-' then
        match parseNat r with
        | some (m, r2) => some (.num (-(m : Int)), r2)
        | none => none
      else if isDigitChar c then
        match parseNat (c :: r) with
        | some (m, r2) => some (.num (m : Int), r2)
        | none => none
      else none

/-- Parse one or more comma-separated array items followed by `]`. -/
def parseItemsLoop : Nat → List Char → Option (List JVal × List Char)
  | 0, _ => none
  | fuel + 1, cs =>
    match parseVal fuel cs with
    | none => none
    | some (v, cs1) =>
      match skipWs cs1 with
      | ',' :: cs2 =>
        match parseItemsLoop fuel cs2 with
        | some (vs, rest) => some (v :: vs, rest)
        | none => none
      | ']' :: cs2 => some ([v], cs2)
      | _ => none

/-- Parse one or more comma-separated `"key": value` fields followed by
`}`. -/
def parseFieldsLoop : Nat → List Char → Option (List (String × JVal) × List Char)
  | 0, _ => none
  | fuel + 1, cs =>
    match skipWs cs with
    | '"' :: cs1 =>
      match parseStringGo [] cs1 with
      | none => none
      | some (k, cs2) =>
        match skipWs cs2 with
        | ':' :: cs3 =>
          match parseVal fuel cs3 with
          | none => none
          | some (v, cs4) =>
            match skipWs cs4 with
            | ',' :: cs5 =>
              match parseFieldsLoop fuel cs5 with
              | some (fs, rest) => some ((k, v) :: fs, rest)
              | none => none
            | '}' :: cs5 => some ([(k, v)], cs5)
            | _ => none
        | _ => none
    | _ => none

end

/-- `JSON.parse(s)` as far as the model goes: parse one value and require
only trailing whitespace after it.  Fuel `s.length + 1` cannot be exhausted
on any output of `stringify` (established below). -/
def parseJson (s : String) : Option JVal :=
  match parseVal (s.data.length + 1) s.data with
  | some (v, rest) => if skipWs rest = [] then some v else none
  | none => none

/-- `readFile(filepath)` from `database`, as a function of the file content
(`none` when `fs.existsSync` is false): an absent file yields `[]`; content
that fails to parse is logged and yields `[]`; otherwise the parsed value is
returned unchanged, whatever its shape. -/
def readFile (content : Option String) : JVal :=
  match content with
  | none => .arr []
  | some s =>
    match parseJson s with
    | some v => v
    | none => .arr []

/-- `writeFile(filepath, data)` from `database`, as the content written:
`JSON.stringify(data, null, 2)`.  (The `console.log` and the
directory-creation step carry no data and are elided.) -/
def writeFileContent (data : JVal) : String :=
  stringify data

/-- The modelled filesystem: an association list from path to content. -/
abbrev FS := List (String × String)

/-- Content of a file, `none` when absent. -/
def fsRead (fs : FS) (p : String) : Option String :=
  (fs.find? (fun e => e.1 == p)).map (fun e => e.2)

/-- Overwrite or create a file. -/
def fsWrite (fs : FS) (p : String) (c : String) : FS :=
  if fs.any (fun e => e.1 == p) then
    fs.map (fun e => if e.1 == p then (e.1, c) else e)
  else fs ++ [(p, c)]

/-- The backing path of a collection:
`` `${this.directory}/${collection}.json` ``. -/
def collectionPath (dir coll : String) : String :=
  dir ++ "/" ++ coll ++ ".json"

/-- One observable access to a collection file. -/
inductive FsEvent where
  | read : String → FsEvent
  | write : String → FsEvent
deriving DecidableEq

/-- `Database.insertOne(collection, document)`: name guard, plain-object
guard, identity assignment, read, push, write.  Returns the outcome and the
ordered list of collection-file accesses performed. -/
def insertOne (dir coll : String) (document : JVal) (rnd : List (Fin 256))
    (fs : FS) : Except JsError FS × List FsEvent :=
  if !validateAlphabetical coll then (.error .collectionError, [])
  else if !isPlainObject document then
    (.error (.typeError "Expected an object for 'document', but received a non-object value."), [])
  else
    match validateDoc rnd document with
    | .error e => (.error e, [])
    | .ok doc =>
      let path := collectionPath dir coll
      let data := readFile (fsRead fs path)
      match jsPush data doc with
      | .error e => (.error e, [.read path])
      | .ok newData => (.ok (fsWrite fs path (writeFileContent newData)), [.read path, .write path])

/-- The loop body of `Database.insertMany`: validate each document in input
order (drawing the bytes for the `i`-th fresh identifier from `rnds i`) and
push it onto the loaded data. -/
def insertManyLoop (rnds : Nat → List (Fin 256)) (i : Nat) (docs : List JVal)
    (data : JVal) : Except JsError JVal :=
  match docs with
  | [] => .ok data
  | d :: rest =>
    match validateDoc (rnds i) d with
    | .error e => .error e
    | .ok d2 =>
      match jsPush data d2 with
      | .error e => .error e
      | .ok data2 => insertManyLoop rnds (i + 1) rest data2

/-- `Database.insertMany(collection, docs)`: name guard, array-of-objects
guard (arrays pass the element check), then read, validate-and-push each
document, and a single write. -/
def insertMany (dir coll : String) (docs : JVal) (rnds : Nat → List (Fin 256))
    (fs : FS) : Except JsError FS × List FsEvent :=
  if !validateAlphabetical coll then (.error .collectionError, [])
  else
    match docs with
    | .arr ds =>
      if !ds.all isObjectLike then
        (.error (.typeError "Expected an array of objects for 'docs'."), [])
      else
        let path := collectionPath dir coll
        let data := readFile (fsRead fs path)
        match insertManyLoop rnds 0 ds data with
        | .error e => (.error e, [.read path])
        | .ok newData =>
          (.ok (fsWrite fs path (writeFileContent newData)), [.read path, .write path])
    | _ => (.error (.typeError "Expected an array of objects for 'docs'."), [])

/-- `array[0]` in JavaScript: the first element, `undefined` when empty. -/
def firstOrUndef : List JVal → JVal
  | [] => .undefined
  | x :: _ => x

/-- `Database.findById(collection, _id)`: name guard, read, filter by
`{ _id }`, first result or `undefined`. -/
def findById (dir coll : String) (id : JVal) (fs : FS) :
    Except JsError JVal × List FsEvent :=
  if !validateAlphabetical coll then (.error .collectionError, [])
  else
    let path := collectionPath dir coll
    let data := readFile (fsRead fs path)
    match wfilter data [("_id", id)] with
    | .error e => (.error e, [.read path])
    | .ok results => (.ok (firstOrUndef results), [.read path])

/-- `Database.findMany(collection, filter)`: name guard, read, filter. -/
def findMany (dir coll : String) (criteria : List (String × JVal)) (fs : FS) :
    Except JsError (List JVal) × List FsEvent :=
  if !validateAlphabetical coll then (.error .collectionError, [])
  else
    let path := collectionPath dir coll
    let data := readFile (fsRead fs path)
    match wfilter data criteria with
    | .error e => (.error e, [.read path])
    | .ok results => (.ok results, [.read path])

/-- `Database.findOne(collection, filter)`: name guard, read, filter, first
result or `undefined`. -/
def findOne (dir coll : String) (criteria : List (String × JVal)) (fs : FS) :
    Except JsError JVal × List FsEvent :=
  if !validateAlphabetical coll then (.error .collectionError, [])
  else
    let path := collectionPath dir coll
    let data := readFile (fsRead fs path)
    match wfilter data criteria with
    | .error e => (.error e, [.read path])
    | .ok results => (.ok (firstOrUndef results), [.read path])

/-- `Database.updateById(collection, _id, updates)`: name guard, read,
`update(data, { _id }, updates)`, write. -/
def updateById (dir coll : String) (id : JVal) (updates : JVal) (fs : FS) :
    Except JsError FS × List FsEvent :=
  if !validateAlphabetical coll then (.error .collectionError, [])
  else
    let path := collectionPath dir coll
    let data := readFile (fsRead fs path)
    match wupdate data [("_id", id)] updates with
    | .error e => (.error e, [.read path])
    | .ok newData => (.ok (fsWrite fs path (writeFileContent newData)), [.read path, .write path])

/-- `Database.update(collection, filter, updates)`: name guard, read,
`update`, write. -/
def updateWhere (dir coll : String) (criteria : List (String × JVal))
    (updates : JVal) (fs : FS) : Except JsError FS × List FsEvent :=
  if !validateAlphabetical coll then (.error .collectionError, [])
  else
    let path := collectionPath dir coll
    let data := readFile (fsRead fs path)
    match wupdate data criteria updates with
    | .error e => (.error e, [.read path])
    | .ok newData => (.ok (fsWrite fs path (writeFileContent newData)), [.read path, .write path])

/-- `Database.delete(collection, filter)`: name guard, read, `erase`,
write. -/
def deleteWhere (dir coll : String) (criteria : List (String × JVal)) (fs : FS) :
    Except JsError FS × List FsEvent :=
  if !validateAlphabetical coll then (.error .collectionError, [])
  else
    let path := collectionPath dir coll
    let data := readFile (fsRead fs path)
    match werase data criteria with
    | .error e => (.error e, [.read path])
    | .ok newData => (.ok (fsWrite fs path (writeFileContent newData)), [.read path, .write path])

/-- `Database.deleteById(collection, _id)`: name guard, read, `erase` by
`{ _id }`, write. -/
def deleteById (dir coll : String) (id : JVal) (fs : FS) :
    Except JsError FS × List FsEvent :=
  if !validateAlphabetical coll then (.error .collectionError, [])
  else
    let path := collectionPath dir coll
    let data := readFile (fsRead fs path)
    match werase data [("_id", id)] with
    | .error e => (.error e, [.read path])
    | .ok newData => (.ok (fsWrite fs path (writeFileContent newData)), [.read path, .write path])

/-- Every character of `w` is JSON whitespace. -/
def allWs (w : List Char) : Prop :=
  ∀ c ∈ w, isWs c = true

/-- The input does not begin with a decimal digit (so a preceding number
literal cannot be extended into it). -/
def noDigitHead : List Char → Prop
  | [] => True
  | c :: _ => isDigitChar c = false

theorem allWs_nil : allWs [] := by
  intro c hc
  simp at hc

theorem allWs_nspaces (n : Nat) : allWs (nspaces n) := by
  intro c hc
  rw [(List.eq_of_mem_replicate hc : c = ' ')]
  decide

theorem allWs_append {w1 w2 : List Char} (h1 : allWs w1) (h2 : allWs w2) :
    allWs (w1 ++ w2) := by
  intro c hc
  rcases List.mem_append.mp hc with h | h
  · exact h1 c h
  · exact h2 c h

theorem allWs_cons {c : Char} {w : List Char} (hc : isWs c = true) (hw : allWs w) :
    allWs (c :: w) := by
  intro x hx
  rcases List.mem_cons.mp hx with h | h
  · simpa [h] using hc
  · exact hw x h

theorem skipWs_append_ws {w : List Char} (hw : allWs w) (cs : List Char) :
    skipWs (w ++ cs) = skipWs cs := by
  induction w with
  | nil => rfl
  | cons c w ih =>
    have hc := hw c (by simp)
    have hw2 : allWs w := fun x hx => hw x (by simp [hx])
    simp [skipWs, hc, ih hw2]

theorem skipWs_cons_not_ws {c : Char} (hc : isWs c = false) (r : List Char) :
    skipWs (c :: r) = c :: r := by
  simp [skipWs, hc]

theorem isWs_not_digit {c : Char} (hc : isWs c = true) : isDigitChar c = false := by
  have h : c = ' ' ∨ c = Char.ofNat 10 ∨ c = Char.ofNat 9 ∨ c = Char.ofNat 13 := by
    simpa [isWs, or_assoc] using hc
  rcases h with rfl | rfl | rfl | rfl <;> decide

theorem noDigitHead_ws_append {w : List Char} (hw : allWs w) {c : Char}
    (hc : isDigitChar c = false) (t : List Char) :
    noDigitHead (w ++ c :: t) := by
  cases w with
  | nil => exact hc
  | cons x w => exact isWs_not_digit (hw x (by simp))

theorem parseVal_ws (fuel : Nat) {w : List Char} (hw : allWs w) (cs : List Char) :
    parseVal fuel (w ++ cs) = parseVal fuel cs := by
  cases fuel with
  | zero => rfl
  | succ fuel => simp only [parseVal, skipWs_append_ws hw]

theorem needVal_pos (v : JVal) : 1 ≤ needVal v := by
  cases v with
  | arr l => cases l <;> simp [needVal]
  | obj l => cases l <;> simp [needVal]
  | _ => simp [needVal]

/-- A digit character is not JSON whitespace. -/
theorem digit_not_ws {c : Char} (hc : isDigitChar c = true) : isWs c = false := by
  have h1 : c ≠ ' ' := by intro h; subst h; simp [isDigitChar] at hc
  have h2 : c ≠ Char.ofNat 10 := by intro h; subst h; simp [isDigitChar] at hc
  have h3 : c ≠ Char.ofNat 9 := by intro h; subst h; simp [isDigitChar] at hc
  have h4 : c ≠ Char.ofNat 13 := by intro h; subst h; simp [isDigitChar] at hc
  simp [isWs, h1, h2, h3, h4]

/-- Facts about a decimal-digit character needed to drive the parser's
dispatch past the non-number branches. -/
theorem digitChar_facts {c : Char} (hc : isDigitChar c = true) :
    c ≠ 'n' ∧ c ≠ 't' ∧ c ≠ 'f' ∧ c ≠ '"' ∧ c ≠ '[' ∧ c ≠ '{' ∧ c ≠ '-' := by
  refine ⟨?_, ?_, ?_, ?_, ?_, ?_, ?_⟩ <;>
    (intro h; subst h; simp [isDigitChar] at hc)

theorem parseDigitsLoop_spec (ds : List Char) : ∀ (acc : Nat) (rest : List Char),
    (∀ c ∈ ds, isDigitChar c = true) → noDigitHead rest →
    parseDigitsLoop acc (ds ++ rest) =
      (ds.foldl (fun a c => a * 10 + (c.toNat - 48)) acc, rest) := by
  induction ds with
  | nil =>
    intro acc rest _ hrest
    cases rest with
    | nil => rfl
    | cons c r =>
      simp only [noDigitHead] at hrest
      simp [parseDigitsLoop, hrest]
  | cons d ds ih =>
    intro acc rest hds hrest
    have hd := hds d (by simp)
    simp only [List.cons_append, parseDigitsLoop, hd, if_true, List.foldl_cons]
    exact ih _ _ (fun c hc => hds c (by simp [hc])) hrest

theorem digitChar_toNat {d : Nat} (hd : d < 10) : (digitChar d).toNat = 48 + d := by
  interval_cases d <;> decide

theorem isDigitChar_digitChar {d : Nat} (hd : d < 10) : isDigitChar (digitChar d) = true := by
  interval_cases d <;> decide

theorem digitChar_ne_zeroChar {d : Nat} (hd : d < 10) (h0 : d ≠ 0) : digitChar d ≠ '0' := by
  interval_cases d
  · exact absurd rfl h0
  all_goals decide

theorem natChars_all_digits (m : Nat) : ∀ c ∈ natChars m, isDigitChar c = true := by
  intro c hc
  by_cases hm : m = 0
  · subst hm
    simp [natChars] at hc
    subst hc
    decide
  · simp [natChars, hm] at hc
    obtain ⟨d, hd, rfl⟩ := hc
    exact isDigitChar_digitChar (Nat.digits_lt_base (by norm_num) hd)

theorem foldr_digitChar (l : List Nat) (hl : ∀ d ∈ l, d < 10) (acc : Nat) :
    List.foldr (fun d a => a * 10 + ((digitChar d).toNat - 48)) acc l
      = List.foldr (fun d a => a * 10 + d) acc l := by
  induction l with
  | nil => rfl
  | cons d l ih =>
    have hd := hl d (by simp)
    simp only [List.foldr_cons, ih (fun x hx => hl x (by simp [hx])),
      digitChar_toNat hd]
    omega

theorem foldr_ofDigits (l : List Nat) (acc : Nat) :
    List.foldr (fun d a => a * 10 + d) acc l = Nat.ofDigits 10 (l ++ [acc]) := by
  induction l with
  | nil => simp [Nat.ofDigits]
  | cons d l ih =>
    simp only [List.foldr_cons, ih, List.cons_append, Nat.ofDigits_cons]
    omega

theorem parseNat_natChars (m : Nat) (rest : List Char) (hrest : noDigitHead rest) :
    parseNat (natChars m ++ rest) = some (m, rest) := by
  by_cases hm : m = 0
  · subst hm
    simp [natChars, parseNat]
  · have hne : Nat.digits 10 m ≠ [] := Nat.digits_ne_nil_iff_ne_zero.mpr hm
    rcases List.eq_nil_or_concat (Nat.digits 10 m) with h | ⟨l, dl, hds⟩
    · exact absurd h hne
    · have hdl_last : (Nat.digits 10 m).getLast hne = dl := by
        simp only [hds, List.concat_eq_append]
        exact List.getLast_append _
      have hdl0 : dl ≠ 0 := by
        have h := Nat.getLast_digit_ne_zero 10 hm
        rwa [hdl_last] at h
      have hds2 : Nat.digits 10 m = l ++ [dl] := by simpa using hds
      have hdl10 : dl < 10 := Nat.digits_lt_base (by norm_num) (by rw [hds2]; simp)
      have hl10 : ∀ d ∈ l, d < 10 := fun d hd =>
        Nat.digits_lt_base (by norm_num) (by rw [hds2]; simp [hd])
      have hnat : natChars m = digitChar dl :: (l.map digitChar).reverse := by
        simp [natChars, hm, hds2]
      rw [hnat]
      have hdig : isDigitChar (digitChar dl) = true := isDigitChar_digitChar hdl10
      have hne0 : digitChar dl ≠ '0' := digitChar_ne_zeroChar hdl10 hdl0
      simp only [List.cons_append, parseNat, if_neg hne0, hdig, if_true]
      rw [parseDigitsLoop_spec _ _ _
        (by
          intro c hc
          simp at hc
          obtain ⟨d, hd, rfl⟩ := hc
          exact isDigitChar_digitChar (hl10 d hd)) hrest]
      rw [List.foldl_reverse]
      rw [List.foldr_map]
      rw [digitChar_toNat hdl10]
      have hacc : 48 + dl - 48 = dl := by omega
      rw [hacc]
      rw [foldr_digitChar l hl10 dl, foldr_ofDigits l dl, ← hds2,
        Nat.ofDigits_digits]

theorem hexVal_hexChar {n : Nat} (hn : n < 16) : hexVal (hexChar n) = some n := by
  interval_cases n <;> decide

theorem parseStringGo_escape (l : List Char) : ∀ (acc : List Char) (rest : List Char),
    parseStringGo acc ((l.map escapeChar).flatten ++ '"' :: rest)
      = some (String.mk (acc.reverse ++ l), rest) := by
  induction l with
  | nil =>
    intro acc rest
    simp only [List.map_nil, List.flatten_nil, List.nil_append]
    rw [parseStringGo.eq_def]
    simp
  | cons c l ih =>
    intro acc rest
    simp only [List.map_cons, List.flatten_cons, List.append_assoc]
    by_cases h1 : c = '"'
    · subst h1
      rw [show escapeChar '"' = ['\\', '"'] from rfl]
      simp only [List.cons_append, List.nil_append]
      rw [parseStringGo.eq_def]
      simp [ih]
    by_cases h2 : c = '\\'
    · subst h2
      rw [show escapeChar '\\' = ['\\', '\\'] from rfl]
      simp only [List.cons_append, List.nil_append]
      rw [parseStringGo.eq_def]
      simp [ih]
    by_cases h3 : c = Char.ofNat 8
    · subst h3
      rw [show escapeChar (Char.ofNat 8) = ['\\', 'b'] from rfl]
      simp only [List.cons_append, List.nil_append]
      rw [parseStringGo.eq_def]
      simp [ih]
    by_cases h4 : c = Char.ofNat 9
    · subst h4
      rw [show escapeChar (Char.ofNat 9) = ['\\', 't'] from rfl]
      simp only [List.cons_append, List.nil_append]
      rw [parseStringGo.eq_def]
      simp [ih]
    by_cases h5 : c = Char.ofNat 10
    · subst h5
      rw [show escapeChar (Char.ofNat 10) = ['\\', 'n'] from rfl]
      simp only [List.cons_append, List.nil_append]
      rw [parseStringGo.eq_def]
      simp [ih]
    by_cases h6 : c = Char.ofNat 12
    · subst h6
      rw [show escapeChar (Char.ofNat 12) = ['\\', 'f'] from rfl]
      simp only [List.cons_append, List.nil_append]
      rw [parseStringGo.eq_def]
      simp [ih]
    by_cases h7 : c = Char.ofNat 13
    · subst h7
      rw [show escapeChar (Char.ofNat 13) = ['\\', 'r'] from rfl]
      simp only [List.cons_append, List.nil_append]
      rw [parseStringGo.eq_def]
      simp [ih]
    by_cases h8 : c.toNat < 32
    · rw [show escapeChar c
          = ['\\', 'u', '0', '0', hexChar (c.toNat / 16), hexChar (c.toNat % 16)] from by
        simp [escapeChar, h1, h2, h3, h4, h5, h6, h7, h8]]
      simp only [List.cons_append, List.nil_append]
      rw [parseStringGo.eq_def]
      simp [show hexVal '0' = some 0 from by decide,
        hexVal_hexChar (show c.toNat / 16 < 16 from by omega),
        hexVal_hexChar (show c.toNat % 16 < 16 from by omega),
        show ((0 * 16 + 0) * 16 + c.toNat / 16) * 16 + c.toNat % 16 = c.toNat from by omega,
        show c.toNat / 16 * 16 + c.toNat % 16 = c.toNat from by omega,
        Nat.div_add_mod, Char.ofNat_toNat, ih]
    · rw [show escapeChar c = [c] from by
        simp [escapeChar, h1, h2, h3, h4, h5, h6, h7, h8]]
      simp only [List.cons_append, List.nil_append]
      rw [parseStringGo.eq_def]
      simp [h1, h2, ih]

theorem natChars_ne_nil (m : Nat) : natChars m ≠ [] := by
  by_cases hm : m = 0
  · subst hm; simp [natChars]
  · have hne : Nat.digits 10 m ≠ [] := Nat.digits_ne_nil_iff_ne_zero.mpr hm
    simp [natChars, hm, hne]

theorem natChars_head (m : Nat) :
    ∃ c cs, natChars m = c :: cs ∧ isDigitChar c = true := by
  cases h : natChars m with
  | nil => exact absurd h (natChars_ne_nil m)
  | cons c cs =>
    refine ⟨c, cs, rfl, ?_⟩
    have := natChars_all_digits m c (by rw [h]; simp)
    exact this

/-- More dispatch facts about a digit character. -/
theorem digitChar_facts2 {c : Char} (hc : isDigitChar c = true) :
    c ≠ ']' ∧ c ≠ '}' ∧ c ≠ ',' ∧ c ≠ ':' := by
  refine ⟨?_, ?_, ?_, ?_⟩ <;> (intro h; subst h; simp [isDigitChar] at hc)

/-- Unfolding of `printVal` on an object whose fields all survive the
`undefined` filter check as the empty list. -/
theorem printVal_obj_nil (ind : Nat) {fields : List (String × JVal)}
    (hf : fields.filter (fun p => !isUndef p.2) = []) :
    printVal ind (.obj fields) = ['\x7b', '\x7d'] := by
  simp only [printVal]
  split
  · rfl
  · rename_i heq
    rw [hf] at heq
    simp at heq

/-- Unfolding of `printVal` on an object whose filtered field list is
nonempty. -/
theorem printVal_obj_cons (ind : Nat) {fields : List (String × JVal)}
    {q : String × JVal} {kept : List (String × JVal)}
    (hf : fields.filter (fun p => !isUndef p.2) = q :: kept) :
    printVal ind (.obj fields) =
      '\x7b' :: '\n' :: (printFields (ind + 2) (q :: kept) ++ '\n' :: (nspaces ind ++ ['\x7d'])) := by
  simp only [printVal]
  split
  · rename_i heq
    rw [hf] at heq
    simp at heq
  · rename_i q2 kept2 heq
    rw [hf] at heq
    simp only [List.cons.injEq] at heq
    rw [heq.1, heq.2]

/-- Head classification of a printed JSON value: the first character is a
token character, in particular neither whitespace nor a closing bracket. -/
theorem printVal_head (ind : Nat) (v : JVal) :
    ∃ c cs, printVal ind v = c :: cs ∧ isWs c = false ∧ c ≠ ']' ∧ c ≠ '\x7d' := by
  cases v with
  | null => exact ⟨'n', ['u', 'l', 'l'], by simp [printVal], by decide, by decide, by decide⟩
  | undefined => exact ⟨'n', ['u', 'l', 'l'], by simp [printVal], by decide, by decide, by decide⟩
  | bool b =>
    cases b with
    | true => exact ⟨'t', ['r', 'u', 'e'], by simp [printVal], by decide, by decide, by decide⟩
    | false =>
      exact ⟨'f', ['a', 'l', 's', 'e'], by simp [printVal], by decide, by decide, by decide⟩
  | num n =>
    by_cases hn : n < 0
    · exact ⟨'-', natChars n.natAbs, by simp [printVal, intChars, hn], by decide, by decide,
        by decide⟩
    · obtain ⟨c, cs, hnat, hdig⟩ := natChars_head n.toNat
      refine ⟨c, cs, ?_, digit_not_ws hdig, (digitChar_facts2 hdig).1, (digitChar_facts2 hdig).2.1⟩
      simp [printVal, intChars, hn, hnat]
  | str s =>
    exact ⟨'"', escapeString s ++ ['"'], by simp [printVal, quoteString], by decide, by decide,
      by decide⟩
  | arr l =>
    cases l with
    | nil => exact ⟨'[', [']'], by simp [printVal], by decide, by decide, by decide⟩
    | cons x xs =>
      exact ⟨'[', '\n' :: (printItems (ind + 2) (x :: xs) ++ '\n' :: (nspaces ind ++ [']'])),
        by simp [printVal], by decide, by decide, by decide⟩
  | obj fields =>
    cases hf : fields.filter (fun p => !isUndef p.2) with
    | nil =>
      exact ⟨'\x7b', ['\x7d'], printVal_obj_nil ind hf, by decide, by decide, by decide⟩
    | cons q kept =>
      exact ⟨'\x7b',
        '\n' :: (printFields (ind + 2) (q :: kept) ++ '\n' :: (nspaces ind ++ ['\x7d'])),
        printVal_obj_cons ind hf, by decide, by decide, by decide⟩

theorem repOk_not_undef {v : JVal} (h : repOk v = true) : isUndef v = false := by
  cases v <;> simp_all [repOk, isUndef]

theorem filter_noUndef {fields : List (String × JVal)}
    (h : repOkFields fields = true) :
    fields.filter (fun p => !isUndef p.2) = fields := by
  induction fields with
  | nil => rfl
  | cons p rest ih =>
    simp only [repOkFields, Bool.and_eq_true] at h
    simp [List.filter_cons, repOk_not_undef h.1, ih h.2]

/-- The first token after skipping whitespace in printed array items. -/
theorem skipWs_printItems (ind : Nat) (l : List JVal) (hl : l ≠ [])
    (suffix : List Char) :
    ∃ c t, skipWs (printItems ind l ++ suffix) = c :: t ∧ isWs c = false ∧
      c ≠ ']' ∧ c ≠ '\x7d' := by
  obtain ⟨x, xs, rfl⟩ : ∃ x xs, l = x :: xs := by
    cases l with
    | nil => exact absurd rfl hl
    | cons x xs => exact ⟨x, xs, rfl⟩
  obtain ⟨c, cs, hpr, hws, h1, h2⟩ := printVal_head ind x
  cases xs with
  | nil =>
    have hskip : skipWs (printItems ind [x] ++ suffix) = c :: (cs ++ suffix) := by
      rw [show printItems ind [x] = nspaces ind ++ printVal ind x from by simp [printItems]]
      rw [List.append_assoc, skipWs_append_ws (allWs_nspaces ind), hpr, List.cons_append,
        skipWs_cons_not_ws hws]
    exact ⟨c, _, hskip, hws, h1, h2⟩
  | cons y ys =>
    have hskip : skipWs (printItems ind (x :: y :: ys) ++ suffix)
        = c :: (cs ++ (',' :: '\n' :: (printItems ind (y :: ys) ++ suffix))) := by
      rw [show printItems ind (x :: y :: ys)
          = nspaces ind ++ (printVal ind x ++ ',' :: '\n' :: printItems ind (y :: ys)) from by
        simp [printItems]]
      rw [List.append_assoc, skipWs_append_ws (allWs_nspaces ind), hpr]
      simp only [List.cons_append, List.append_assoc]
      rw [skipWs_cons_not_ws hws]
    exact ⟨c, _, hskip, hws, h1, h2⟩

/-- The first token after skipping whitespace in printed object fields is
always an opening quote. -/
theorem skipWs_printFields (ind : Nat) (fs : List (String × JVal)) (hfs : fs ≠ [])
    (suffix : List Char) :
    ∃ t, skipWs (printFields ind fs ++ suffix) = '"' :: t := by
  obtain ⟨p, ps, rfl⟩ : ∃ p ps, fs = p :: ps := by
    cases fs with
    | nil => exact absurd rfl hfs
    | cons p ps => exact ⟨p, ps, rfl⟩
  obtain ⟨k, v⟩ := p
  cases ps with
  | nil =>
    have hskip : skipWs (printFields ind [(k, v)] ++ suffix)
        = '"' :: (escapeString k ++ ('"' :: ':' :: ' ' :: (printVal ind v ++ suffix))) := by
      rw [show printFields ind [(k, v)]
          = nspaces ind ++ (quoteString k ++ ':' :: ' ' :: printVal ind v) from by
        simp [printFields]]
      rw [List.append_assoc, skipWs_append_ws (allWs_nspaces ind)]
      simp only [quoteString, List.cons_append, List.append_assoc, List.nil_append]
      rw [skipWs_cons_not_ws (by decide)]
    exact ⟨_, hskip⟩
  | cons q qs =>
    have hskip : skipWs (printFields ind ((k, v) :: q :: qs) ++ suffix)
        = '"' :: (escapeString k ++ ('"' :: ':' :: ' ' ::
            (printVal ind v ++ (',' :: '\n' :: (printFields ind (q :: qs) ++ suffix))))) := by
      rw [show printFields ind ((k, v) :: q :: qs)
          = nspaces ind ++ (quoteString k ++ ':' :: ' ' ::
              (printVal ind v ++ ',' :: '\n' :: printFields ind (q :: qs))) from by
        simp [printFields]]
      rw [List.append_assoc, skipWs_append_ws (allWs_nspaces ind)]
      simp only [quoteString, List.cons_append, List.append_assoc, List.nil_append]
      rw [skipWs_cons_not_ws (by decide)]
    exact ⟨_, hskip⟩

set_option maxHeartbeats 1000000 in
/-- Joint statement of parser-printer inversion for values, array items and
object fields, by induction on parser fuel. -/
theorem parse_print (fuel : Nat) :
    (∀ (v : JVal) (ind : Nat) (w rest : List Char), repOk v = true → needVal v ≤ fuel →
        allWs w → noDigitHead rest →
        parseVal fuel (w ++ (printVal ind v ++ rest)) = some (v, rest)) ∧
    (∀ (l : List JVal) (ind : Nat) (w1 w2 rest : List Char), l ≠ [] →
        repOkItems l = true → needItems l ≤ fuel → allWs w1 → allWs w2 →
        parseItemsLoop fuel (w1 ++ (printItems ind l ++ (w2 ++ (']' :: rest))))
          = some (l, rest)) ∧
    (∀ (fs : List (String × JVal)) (ind : Nat) (w1 w2 rest : List Char), fs ≠ [] →
        repOkFields fs = true → needFields fs ≤ fuel → allWs w1 → allWs w2 →
        parseFieldsLoop fuel (w1 ++ (printFields ind fs ++ (w2 ++ ('\x7d' :: rest))))
          = some (fs, rest)) := by
  induction fuel with
  | zero =>
    refine ⟨?_, ?_, ?_⟩
    · intro v ind w rest _ hneed _ _
      exact absurd hneed (by have := needVal_pos v; omega)
    · intro l ind w1 w2 rest hne _ hneed _ _
      obtain ⟨x, xs, rfl⟩ : ∃ x xs, l = x :: xs := by
        cases l with
        | nil => exact absurd rfl hne
        | cons x xs => exact ⟨x, xs, rfl⟩
      simp [needItems] at hneed
    · intro fs ind w1 w2 rest hne _ hneed _ _
      obtain ⟨p, ps, rfl⟩ : ∃ p ps, fs = p :: ps := by
        cases fs with
        | nil => exact absurd rfl hne
        | cons p ps => exact ⟨p, ps, rfl⟩
      simp [needFields] at hneed
  | succ fuel ih =>
    obtain ⟨ihV, ihI, ihF⟩ := ih
    refine ⟨?_, ?_, ?_⟩
    · intro v ind w rest hrep hneed hw hrest
      cases v with
      | null =>
        rw [show printVal ind .null = ['n', 'u', 'l', 'l'] from by simp [printVal]]
        rw [parseVal_ws _ hw]
        rw [parseVal.eq_def]
        simp +decide [skipWs]
      | undefined => simp [repOk] at hrep
      | bool b =>
        cases b with
        | true =>
          rw [show printVal ind (.bool true) = ['t', 'r', 'u', 'e'] from by simp [printVal]]
          rw [parseVal_ws _ hw]
          rw [parseVal.eq_def]
          simp +decide [skipWs]
        | false =>
          rw [show printVal ind (.bool false) = ['f', 'a', 'l', 's', 'e'] from by
            simp [printVal]]
          rw [parseVal_ws _ hw]
          rw [parseVal.eq_def]
          simp +decide [skipWs]
      | num n =>
        rw [show printVal ind (.num n) = intChars n from by simp [printVal]]
        rw [parseVal_ws _ hw]
        by_cases hn : n < 0
        · rw [show intChars n = '-' :: natChars n.natAbs from by simp [intChars, hn]]
          rw [parseVal.eq_def]
          simp +decide [skipWs, parseNat_natChars _ _ hrest]
          rw [abs_of_neg hn, neg_neg]
        · rw [show intChars n = natChars n.toNat from by simp [intChars, hn]]
          obtain ⟨c, cs, hnat, hdig⟩ := natChars_head n.toNat
          obtain ⟨hn1, hn2, hn3, hn4, hn5, hn6, hn7⟩ := digitChar_facts hdig
          have hpn : parseNat (c :: (cs ++ rest)) = some (n.toNat, rest) := by
            rw [← List.cons_append, ← hnat]
            exact parseNat_natChars _ _ hrest
          rw [hnat]
          rw [parseVal.eq_def]
          simp only [List.cons_append]
          rw [show skipWs (c :: (cs ++ rest)) = c :: (cs ++ rest)
            from skipWs_cons_not_ws (digit_not_ws hdig) _]
          simp +decide [hn1, hn2, hn3, hn4, hn5, hn6, hn7, hdig, hpn,
            Int.toNat_of_nonneg (show (0:Int) ≤ n from by omega)]
      | str s =>
        rw [show printVal ind (.str s) = '"' :: (escapeString s ++ ['"']) from by
          simp [printVal, quoteString]]
        rw [parseVal_ws _ hw]
        rw [parseVal.eq_def]
        have hps : parseStringGo [] (escapeString s ++ ('"' :: rest)) = some (s, rest) := by
          have h := parseStringGo_escape s.data [] rest
          simpa [escapeString, show String.mk s.data = s from rfl] using h
        simp +decide [skipWs, hps]
      | arr l =>
        cases l with
        | nil =>
          rw [show printVal ind (.arr []) = ['[', ']'] from by simp [printVal]]
          rw [parseVal_ws _ hw]
          rw [parseVal.eq_def]
          simp +decide [skipWs]
        | cons x xs =>
          rw [show printVal ind (.arr (x :: xs))
              = '[' :: '\n' :: (printItems (ind + 2) (x :: xs)
                  ++ '\n' :: (nspaces ind ++ [']'])) from by simp [printVal]]
          rw [parseVal_ws _ hw]
          simp only [repOk] at hrep
          simp only [needVal] at hneed
          obtain ⟨c, t, hsk, hcw, hc1, hc2⟩ :=
            skipWs_printItems (ind + 2) (x :: xs) (by simp)
              ('\n' :: (nspaces ind ++ (']' :: rest)))
          have htail : skipWs ('\n' :: (printItems (ind + 2) (x :: xs)
              ++ ('\n' :: (nspaces ind ++ (']' :: rest))))) = c :: t := by
            rw [show ('\n' :: (printItems (ind + 2) (x :: xs)
                ++ ('\n' :: (nspaces ind ++ (']' :: rest)))))
              = ['\n'] ++ (printItems (ind + 2) (x :: xs)
                ++ ('\n' :: (nspaces ind ++ (']' :: rest)))) from rfl]
            rw [skipWs_append_ws (allWs_cons (by decide) allWs_nil) _]
            exact hsk
          have hloop := ihI (x :: xs) (ind + 2) ['\n'] ('\n' :: nspaces ind) rest (by simp)
            hrep (by omega) (allWs_cons (by decide) allWs_nil) (allWs_cons (by decide) (allWs_nspaces ind))
          simp only [List.cons_append, List.append_assoc, List.nil_append] at hloop
          rw [parseVal.eq_def]
          simp only [List.cons_append, List.append_assoc, List.nil_append]
          rw [show skipWs ('[' :: ('\n' :: (printItems (ind + 2) (x :: xs)
              ++ ('\n' :: (nspaces ind ++ (']' :: rest))))))
            = '[' :: ('\n' :: (printItems (ind + 2) (x :: xs)
              ++ ('\n' :: (nspaces ind ++ (']' :: rest)))))
            from skipWs_cons_not_ws (by decide) _]
          simp +decide [htail, if_neg hc1, hloop]
      | obj fields =>
        simp only [repOk] at hrep
        cases fields with
        | nil =>
          rw [printVal_obj_nil ind (show ([] : List (String × JVal)).filter (fun q => !isUndef q.2) = [] from rfl)]
          rw [parseVal_ws _ hw]
          rw [parseVal.eq_def]
          simp +decide [skipWs]
        | cons p ps =>
          have hfil : (p :: ps).filter (fun q => !isUndef q.2) = p :: ps :=
            filter_noUndef hrep
          rw [printVal_obj_cons ind hfil]
          rw [parseVal_ws _ hw]
          simp only [needVal] at hneed
          obtain ⟨t, hsk⟩ :=
            skipWs_printFields (ind + 2) (p :: ps) (by simp)
              ('\n' :: (nspaces ind ++ ('\x7d' :: rest)))
          have htail : skipWs ('\n' :: (printFields (ind + 2) (p :: ps)
              ++ ('\n' :: (nspaces ind ++ ('\x7d' :: rest))))) = '"' :: t := by
            rw [show ('\n' :: (printFields (ind + 2) (p :: ps)
                ++ ('\n' :: (nspaces ind ++ ('\x7d' :: rest)))))
              = ['\n'] ++ (printFields (ind + 2) (p :: ps)
                ++ ('\n' :: (nspaces ind ++ ('\x7d' :: rest)))) from rfl]
            rw [skipWs_append_ws (allWs_cons (by decide) allWs_nil) _]
            exact hsk
          have hloop := ihF (p :: ps) (ind + 2) ['\n'] ('\n' :: nspaces ind) rest (by simp)
            hrep (by omega) (allWs_cons (by decide) allWs_nil) (allWs_cons (by decide) (allWs_nspaces ind))
          simp only [List.cons_append, List.append_assoc, List.nil_append] at hloop
          rw [parseVal.eq_def]
          simp only [List.cons_append, List.append_assoc, List.nil_append]
          rw [show skipWs ('\x7b' :: ('\n' :: (printFields (ind + 2) (p :: ps)
              ++ ('\n' :: (nspaces ind ++ ('\x7d' :: rest))))))
            = '\x7b' :: ('\n' :: (printFields (ind + 2) (p :: ps)
              ++ ('\n' :: (nspaces ind ++ ('\x7d' :: rest)))))
            from skipWs_cons_not_ws (by decide) _]
          simp +decide [htail, hloop]
    · intro l ind w1 w2 rest hne hrep hneed hw1 hw2
      obtain ⟨x, xs, rfl⟩ : ∃ x xs, l = x :: xs := by
        cases l with
        | nil => exact absurd rfl hne
        | cons x xs => exact ⟨x, xs, rfl⟩
      simp only [repOkItems, Bool.and_eq_true] at hrep
      simp only [needItems] at hneed
      cases xs with
      | nil =>
        rw [show printItems ind [x] = nspaces ind ++ printVal ind x from by simp [printItems]]
        rw [parseItemsLoop.eq_def]
        have hv := ihV x ind (w1 ++ nspaces ind) (w2 ++ (']' :: rest)) hrep.1 (by omega)
          (allWs_append hw1 (allWs_nspaces ind)) (noDigitHead_ws_append hw2 (by decide) rest)
        simp only [List.cons_append, List.append_assoc, List.nil_append] at hv ⊢
        rw [hv]
        simp +decide [show skipWs (w2 ++ (']' :: rest)) = ']' :: rest from by
          rw [skipWs_append_ws hw2, skipWs_cons_not_ws (by decide)]]
      | cons y ys =>
        rw [show printItems ind (x :: y :: ys)
            = nspaces ind ++ (printVal ind x ++ ',' :: '\n' :: printItems ind (y :: ys))
          from by simp [printItems]]
        rw [parseItemsLoop.eq_def]
        have hv := ihV x ind (w1 ++ nspaces ind)
          (',' :: ('\n' :: (printItems ind (y :: ys) ++ (w2 ++ (']' :: rest))))) hrep.1
          (by omega) (allWs_append hw1 (allWs_nspaces ind)) (by simp +decide [noDigitHead])
        have hloop := ihI (y :: ys) ind ['\n'] w2 rest (by simp) hrep.2 (by omega)
          (allWs_cons (by decide) allWs_nil) hw2
        simp only [List.cons_append, List.append_assoc, List.nil_append] at hv hloop ⊢
        rw [hv]
        simp +decide [hloop,
          show skipWs (',' :: ('\n' :: (printItems ind (y :: ys) ++ (w2 ++ (']' :: rest)))))
              = ',' :: ('\n' :: (printItems ind (y :: ys) ++ (w2 ++ (']' :: rest))))
            from skipWs_cons_not_ws (by decide) _]
    · intro fs ind w1 w2 rest hne hrep hneed hw1 hw2
      obtain ⟨p, ps, rfl⟩ : ∃ p ps, fs = p :: ps := by
        cases fs with
        | nil => exact absurd rfl hne
        | cons p ps => exact ⟨p, ps, rfl⟩
      obtain ⟨k, v⟩ := p
      simp only [repOkFields, Bool.and_eq_true] at hrep
      simp only [needFields] at hneed
      cases ps with
      | nil =>
        rw [show printFields ind [(k, v)]
            = nspaces ind ++ (quoteString k ++ ':' :: ' ' :: printVal ind v) from by
          simp [printFields]]
        rw [parseFieldsLoop.eq_def]
        have hps := parseStringGo_escape k.data []
          (':' :: (' ' :: (printVal ind v ++ (w2 ++ ('\x7d' :: rest)))))
        have hv := ihV v ind [' '] (w2 ++ ('\x7d' :: rest)) hrep.1 (by omega)
          (allWs_cons (by decide) allWs_nil) (noDigitHead_ws_append hw2 (by decide) rest)
        simp only [quoteString, List.cons_append, List.append_assoc, List.nil_append] at hps hv ⊢
        rw [skipWs_append_ws hw1, skipWs_append_ws (allWs_nspaces ind),
          skipWs_cons_not_ws (by decide)]
        simp +decide [escapeString, hps, show String.mk k.data = k from rfl,
          show skipWs (':' :: (' ' :: (printVal ind v ++ (w2 ++ ('\x7d' :: rest)))))
              = ':' :: (' ' :: (printVal ind v ++ (w2 ++ ('\x7d' :: rest))))
            from skipWs_cons_not_ws (by decide) _,
          hv,
          show skipWs (w2 ++ ('\x7d' :: rest)) = '\x7d' :: rest from by
            rw [skipWs_append_ws hw2, skipWs_cons_not_ws (by decide)]]
      | cons q qs =>
        rw [show printFields ind ((k, v) :: q :: qs)
            = nspaces ind ++ (quoteString k ++ ':' :: ' ' ::
                (printVal ind v ++ ',' :: '\n' :: printFields ind (q :: qs))) from by
          simp [printFields]]
        rw [parseFieldsLoop.eq_def]
        have hps := parseStringGo_escape k.data []
          (':' :: (' ' :: (printVal ind v
            ++ (',' :: ('\n' :: (printFields ind (q :: qs) ++ (w2 ++ ('\x7d' :: rest))))))))
        have hv := ihV v ind [' ']
          (',' :: ('\n' :: (printFields ind (q :: qs) ++ (w2 ++ ('\x7d' :: rest))))) hrep.1
          (by omega) (allWs_cons (by decide) allWs_nil) (by simp +decide [noDigitHead])
        have hloop := ihF (q :: qs) ind ['\n'] w2 rest (by simp) hrep.2 (by omega)
          (allWs_cons (by decide) allWs_nil) hw2
        simp only [quoteString, List.cons_append, List.append_assoc, List.nil_append]
          at hps hv hloop ⊢
        rw [skipWs_append_ws hw1, skipWs_append_ws (allWs_nspaces ind),
          skipWs_cons_not_ws (by decide)]
        simp +decide [escapeString, hps, show String.mk k.data = k from rfl,
          show skipWs (':' :: (' ' :: (printVal ind v
              ++ (',' :: ('\n' :: (printFields ind (q :: qs) ++ (w2 ++ ('\x7d' :: rest))))))))
              = ':' :: (' ' :: (printVal ind v
              ++ (',' :: ('\n' :: (printFields ind (q :: qs) ++ (w2 ++ ('\x7d' :: rest)))))))
            from skipWs_cons_not_ws (by decide) _,
          hv,
          show skipWs (',' :: ('\n' :: (printFields ind (q :: qs) ++ (w2 ++ ('\x7d' :: rest)))))
              = ',' :: ('\n' :: (printFields ind (q :: qs) ++ (w2 ++ ('\x7d' :: rest))))
            from skipWs_cons_not_ws (by decide) _,
          hloop]

/-- Structural induction principle for `JVal` giving membership induction
hypotheses for the nested lists. -/
theorem JVal.indOn {P : JVal → Prop} (hnull : P .null) (hundef : P .undefined)
    (hbool : ∀ b, P (.bool b)) (hnum : ∀ n, P (.num n)) (hstr : ∀ s, P (.str s))
    (harr : ∀ l, (∀ x ∈ l, P x) → P (.arr l))
    (hobj : ∀ fs, (∀ p ∈ fs, P p.2) → P (.obj fs)) : ∀ v, P v
  | .null => hnull
  | .undefined => hundef
  | .bool b => hbool b
  | .num n => hnum n
  | .str s => hstr s
  | .arr l => harr l (fun x hx => JVal.indOn hnull hundef hbool hnum hstr harr hobj x)
  | .obj fs => hobj fs (fun p hp => JVal.indOn hnull hundef hbool hnum hstr harr hobj p.2)
termination_by v => sizeOf v
decreasing_by
  · have h1 := List.sizeOf_lt_of_mem hx
    simp only [JVal.arr.sizeOf_spec]
    omega
  · have h1 := List.sizeOf_lt_of_mem hp
    have h2 : sizeOf p.2 < sizeOf p := by
      obtain ⟨a, b⟩ := p
      simp only [Prod.mk.sizeOf_spec]
      omega
    simp only [JVal.obj.sizeOf_spec]
    omega

theorem needItems_le_printLen (l : List JVal)
    (hx : ∀ x ∈ l, repOk x = true → ∀ ind : Nat, needVal x ≤ (printVal ind x).length + 1)
    (hrep : repOkItems l = true) :
    ∀ ind : Nat, 2 ≤ ind → needItems l ≤ (printItems ind l).length := by
  induction l with
  | nil => intro ind _; simp [needItems, printItems]
  | cons x xs ih =>
    intro ind hind
    simp only [repOkItems, Bool.and_eq_true] at hrep
    have hx1 := hx x (by simp) hrep.1 ind
    cases xs with
    | nil =>
      rw [show printItems ind [x] = nspaces ind ++ printVal ind x from by simp [printItems]]
      simp only [needItems, List.length_append, nspaces, List.length_replicate]
      omega
    | cons y ys =>
      have hys := ih (fun z hz => hx z (by simp [hz])) hrep.2 ind hind
      rw [show printItems ind (x :: y :: ys)
          = nspaces ind ++ (printVal ind x ++ ',' :: '\n' :: printItems ind (y :: ys)) from by
        simp [printItems]]
      simp only [needItems, List.length_append, List.length_cons, nspaces,
        List.length_replicate] at hys ⊢
      omega

theorem needFields_le_printLen (fs : List (String × JVal))
    (hx : ∀ p ∈ fs, repOk p.2 = true → ∀ ind : Nat, needVal p.2 ≤ (printVal ind p.2).length + 1)
    (hrep : repOkFields fs = true) :
    ∀ ind : Nat, 2 ≤ ind → needFields fs ≤ (printFields ind fs).length := by
  induction fs with
  | nil => intro ind _; simp [needFields, printFields]
  | cons p ps ih =>
    intro ind hind
    obtain ⟨k, v⟩ := p
    simp only [repOkFields, Bool.and_eq_true] at hrep
    have hx1 : needVal v ≤ (printVal ind v).length + 1 := hx (k, v) (by simp) hrep.1 ind
    have hq : 2 ≤ (quoteString k).length := by
      simp [quoteString]
    cases ps with
    | nil =>
      rw [show printFields ind [(k, v)]
          = nspaces ind ++ (quoteString k ++ ':' :: ' ' :: printVal ind v) from by
        simp [printFields]]
      simp only [needFields, needItems, List.length_append, List.length_cons, nspaces,
        List.length_replicate] at hx1 ⊢
      omega
    | cons q qs =>
      have hqs := ih (fun z hz => hx z (by simp [hz])) hrep.2 ind hind
      rw [show printFields ind ((k, v) :: q :: qs)
          = nspaces ind ++ (quoteString k ++ ':' :: ' ' ::
              (printVal ind v ++ ',' :: '\n' :: printFields ind (q :: qs))) from by
        simp [printFields]]
      simp only [needFields, List.length_append, List.length_cons, nspaces,
        List.length_replicate] at hqs ⊢
      omega

/-- The parser fuel needed for a representable value is covered by the length
of its printed form. -/
theorem needVal_le_printLen : ∀ v : JVal, repOk v = true →
    ∀ ind : Nat, needVal v ≤ (printVal ind v).length + 1 := by
  refine JVal.indOn ?_ ?_ ?_ ?_ ?_ ?_ ?_
  · intro _ ind; simp [needVal, printVal]
  · intro h; simp [repOk] at h
  · intro b _ ind; simp [needVal]
  · intro n _ ind; simp [needVal]
  · intro s _ ind; simp [needVal]
  · intro l hmem hrep ind
    simp only [repOk] at hrep
    cases l with
    | nil => simp [needVal, printVal]
    | cons x xs =>
      have hitems := needItems_le_printLen (x :: xs) hmem hrep (ind + 2) (by omega)
      rw [show printVal ind (.arr (x :: xs))
          = '[' :: '\n' :: (printItems (ind + 2) (x :: xs)
              ++ '\n' :: (nspaces ind ++ [']'])) from by simp [printVal]]
      simp only [needVal, List.length_cons, List.length_append, nspaces,
        List.length_replicate] at hitems ⊢
      omega
  · intro fs hmem hrep ind
    simp only [repOk] at hrep
    cases fs with
    | nil =>
      simp [needVal,
        printVal_obj_nil ind
          (show ([] : List (String × JVal)).filter (fun q => !isUndef q.2) = [] from rfl)]
    | cons p ps =>
      have hfil : (p :: ps).filter (fun q => !isUndef q.2) = p :: ps := filter_noUndef hrep
      have hfields := needFields_le_printLen (p :: ps) hmem hrep (ind + 2) (by omega)
      rw [printVal_obj_cons ind hfil]
      simp only [needVal, List.length_cons, List.length_append, nspaces,
        List.length_replicate] at hfields ⊢
      omega

/-- The parser inverts the printer: `JSON.parse` recovers any representable
value from its `JSON.stringify(v, null, 2)` text. -/
theorem parseJson_stringify {v : JVal} (h : repOk v = true) :
    parseJson (stringify v) = some v := by
  unfold parseJson stringify
  rw [show (String.mk (printVal 0 v)).data = printVal 0 v from rfl]
  have hmain := (parse_print ((printVal 0 v).length + 1)).1 v 0 [] [] h
    (needVal_le_printLen v h 0) allWs_nil trivial
  simp only [List.nil_append, List.append_nil] at hmain
  rw [hmain]
  simp [skipWs]

/-- `readFile` recovers any representable value written by `writeFileContent`. -/
theorem readFile_writeFileContent {v : JVal} (h : repOk v = true) :
    readFile (some (writeFileContent v)) = v := by
  simp [readFile, writeFileContent, parseJson_stringify h]

/-- Reading an existing path after overwriting it in place yields the new
content. -/
theorem fsRead_map_write (p c : String) : ∀ fs : FS,
    fs.any (fun e => e.1 == p) = true →
    fsRead (fs.map (fun e => if e.1 == p then (e.1, c) else e)) p = some c := by
  intro fs
  induction fs with
  | nil => simp
  | cons e fs ih =>
    intro hany
    by_cases he : (e.1 == p) = true
    · have he2 : e.1 = p := by simpa using he
      simp [fsRead, List.map_cons, he2, List.find?_cons_of_pos]
    · have he3 : (e.1 == p) = false := by simpa using he
      simp only [List.any_cons, he3, Bool.false_or] at hany
      simp only [fsRead, List.map_cons, if_neg he] at ih ⊢
      rw [List.find?_cons_of_neg _ (by simp [he3])]
      exact ih hany

/-- Reading a freshly appended path yields the new content. -/
theorem fsRead_append_write (p c : String) : ∀ fs : FS,
    fs.any (fun e => e.1 == p) = false →
    fsRead (fs ++ [(p, c)]) p = some c := by
  intro fs
  induction fs with
  | nil => simp [fsRead, List.find?_cons_of_pos]
  | cons e fs ih =>
    intro hany
    simp only [List.any_cons, Bool.or_eq_false_iff] at hany
    simp only [fsRead, List.cons_append]
    rw [List.find?_cons_of_neg _ (by simp [hany.1])]
    simpa [fsRead] using ih hany.2

/-- Reading back the file just written yields its content. -/
theorem fsRead_fsWrite (fs : FS) (p c : String) :
    fsRead (fsWrite fs p c) p = some c := by
  by_cases hany : fs.any (fun e => e.1 == p)
  · simp only [fsWrite, hany, if_true]
    exact fsRead_map_write p c fs hany
  · simp only [fsWrite, hany, if_false]
    exact fsRead_append_write p c fs (by simp only [Bool.not_eq_true] at hany; exact hany)

/-- The value is a string. -/
def isStr : JVal → Bool
  | .str _ => true
  | _ => false

/-- The character is a lowercase hexadecimal digit. -/
def isHexDigit (c : Char) : Bool :=
  (48 ≤ c.toNat && c.toNat ≤ 57) || (97 ≤ c.toNat && c.toNat ≤ 102)

/-- C1: `matches(d, f)` is true iff for every key of the filter, an array
value means membership of `d[key]` in the array and any other value means
strict equality with `d[key]` (logical AND over the keys); the empty filter
matches every document. -/
theorem wmatches_spec (d : JVal) (f : List (String × JVal)) :
    (wmatches d f = true ↔
      ∀ p ∈ f, (match p.2 with
        | JVal.arr vs => ∃ w ∈ vs, jsEq (getProp d p.1) w = true
        | fv => jsEq (getProp d p.1) fv = true)) ∧
    wmatches d [] = true := by
  have key : ∀ p : String × JVal, (matchesKey d p.1 p.2 = true ↔
      (match p.2 with
        | JVal.arr vs => ∃ w ∈ vs, jsEq (getProp d p.1) w = true
        | fv => jsEq (getProp d p.1) fv = true)) := by
    intro p
    cases hm : p.2 <;> simp [matchesKey, hm, List.any_eq_true]
  refine ⟨?_, rfl⟩
  simp only [wmatches, List.all_eq_true]
  constructor
  · intro h p hp
    exact (key p).mp (h p hp)
  · intro h p hp
    exact (key p).mpr (h p hp)

/-- C2 counterexample: on a document whose `_id` is the number `5`,
`validateDoc` returns the document unchanged, so the returned `_id` is
truthy but not a string — refuting "the returned document always has a
non-empty string `_id`". -/
theorem validateDoc_nonstring_id :
    validateDoc (List.replicate 8 (0 : Fin 256)) (.obj [("_id", JVal.num 5)])
        = .ok (.obj [("_id", JVal.num 5)]) ∧
      isStr (getProp (.obj [("_id", JVal.num 5)]) "_id") = false ∧
      truthy (getProp (.obj [("_id", JVal.num 5)]) "_id") = true :=
  ⟨rfl, rfl, rfl⟩

theorem randomHex_length (bytes : List (Fin 256)) :
    (randomHex bytes).length = 2 * bytes.length := by
  induction bytes with
  | nil => rfl
  | cons b bs ih =>
    simp only [randomHex, List.map_cons, List.flatten_cons, byteToHex] at ih ⊢
    simp only [String.length, String.mk] at ih ⊢
    simp [ih]
    omega

theorem isHexDigit_hexChar {n : Nat} (hn : n < 16) : isHexDigit (hexChar n) = true := by
  interval_cases n <;> decide

theorem randomHex_all_hex (bytes : List (Fin 256)) :
    (randomHex bytes).data.all isHexDigit = true := by
  induction bytes with
  | nil => rfl
  | cons b bs ih =>
    have hb := b.isLt
    simp only [randomHex, List.map_cons, List.flatten_cons, byteToHex, String.mk,
      List.cons_append, List.nil_append, List.all_cons, Bool.and_eq_true] at ih ⊢
    exact ⟨isHexDigit_hexChar (by omega), isHexDigit_hexChar (by omega), by simpa using ih⟩

theorem getProp_map_set (k : String) (v : JVal) : ∀ fields : List (String × JVal),
    fields.any (fun p => p.1 == k) = true →
    getProp (.obj (fields.map (fun p => if p.1 == k then (p.1, v) else p))) k = v := by
  intro fields
  induction fields with
  | nil => simp
  | cons p ps ih =>
    intro hany
    by_cases hp : (p.1 == k) = true
    · have hp2 : p.1 = k := by simpa using hp
      simp [getProp, List.map_cons, hp2, List.find?_cons_of_pos]
    · have hp3 : (p.1 == k) = false := by simpa using hp
      simp only [List.any_cons, hp3, Bool.false_or] at hany
      simp only [getProp, List.map_cons, if_neg hp] at ih ⊢
      rw [List.find?_cons_of_neg _ (by simp [hp3])]
      exact ih hany

theorem getProp_append_set (k : String) (v : JVal) : ∀ fields : List (String × JVal),
    fields.any (fun p => p.1 == k) = false →
    getProp (.obj (fields ++ [(k, v)])) k = v := by
  intro fields
  induction fields with
  | nil => simp [getProp, List.find?_cons_of_pos]
  | cons p ps ih =>
    intro hany
    simp only [List.any_cons, Bool.or_eq_false_iff] at hany
    simp only [getProp, List.cons_append] at ih ⊢
    rw [List.find?_cons_of_neg _ (by simp [hany.1])]
    exact ih hany.2

/-- Setting a key then reading it back yields the assigned value. -/
theorem getProp_setKey (fields : List (String × JVal)) (k : String) (v : JVal) :
    getProp (.obj (setKey fields k v)) k = v := by
  by_cases hany : fields.any (fun p => p.1 == k)
  · simp only [setKey, hany, if_true]
    exact getProp_map_set k v fields hany
  · simp only [setKey, hany, if_false]
    exact getProp_append_set k v fields (by simp only [Bool.not_eq_true] at hany; exact hany)

/-- C2 (amended): for a plain object, when `_id` is absent or falsy,
`validateDoc` assigns a fresh `_id` which with 8 random bytes is a
16-character lowercase-hexadecimal — hence non-empty — string; in every case
the returned document has a truthy `_id` (not necessarily a string when a
truthy non-string `_id` was supplied), and applying `validateDoc` again
leaves the document unchanged. -/
theorem validateDoc_spec (fields : List (String × JVal)) (rnd rnd2 : List (Fin 256))
    (hlen : rnd.length = 8) :
    (truthy (getProp (.obj fields) "_id") = false →
      ∃ fields2, validateDoc rnd (.obj fields) = .ok (.obj fields2) ∧
        getProp (.obj fields2) "_id" = .str (randomHex rnd) ∧
        (randomHex rnd).length = 16 ∧
        (randomHex rnd).data.all isHexDigit = true ∧
        randomHex rnd ≠ "") ∧
    (∀ d', validateDoc rnd (.obj fields) = .ok d' →
      truthy (getProp d' "_id") = true ∧ validateDoc rnd2 d' = .ok d') := by
  have hlen16 : (randomHex rnd).length = 16 := by
    rw [randomHex_length, hlen]
  have hne : randomHex rnd ≠ "" := by
    intro h
    rw [h] at hlen16
    simp at hlen16
  constructor
  · intro hf
    refine ⟨setKey fields "_id" (.str (randomHex rnd)), ?_, getProp_setKey _ _ _,
      hlen16, randomHex_all_hex rnd, hne⟩
    simp [validateDoc, hf]
  · intro d' hd
    by_cases ht : truthy (getProp (.obj fields) "_id") = true
    · simp only [validateDoc, ht, if_true] at hd
      obtain rfl : JVal.obj fields = d' := by simpa using hd
      exact ⟨ht, by simp [validateDoc, ht]⟩
    · have hf : truthy (getProp (.obj fields) "_id") = false := by
        simp only [Bool.not_eq_true] at ht
        exact ht
      simp only [validateDoc, hf, Bool.false_eq_true, if_false] at hd
      obtain rfl : JVal.obj (setKey fields "_id" (.str (randomHex rnd))) = d' := by
        simpa using hd
      have htr : truthy (getProp
          (.obj (setKey fields "_id" (.str (randomHex rnd)))) "_id") = true := by
        rw [getProp_setKey]
        simp [truthy, bne_iff_ne]
        exact hne
      exact ⟨htr, by simp [validateDoc, htr]⟩

/-- Witness for `validateDoc_spec`: at the empty document and 8 zero bytes
the hypothesis holds and a fresh 16-character identifier is assigned. -/
theorem validateDoc_spec_witness :
    (List.replicate 8 (0 : Fin 256)).length = 8 ∧
      (randomHex (List.replicate 8 (0 : Fin 256))).length = 16 :=
  ⟨by simp,
    ((validateDoc_spec [] (List.replicate 8 (0 : Fin 256)) [] (by simp)).1 rfl).elim
      (fun _ hx => hx.2.2.1)⟩

/-- C3 counterexample: a stored file whose content is the valid JSON text
`42` (not an array) is returned by `readFile` unchanged — there is no
recoverable `CorruptCollection` handling — and a subsequent `findMany` then
surfaces the `TypeError` thrown by `filter`, crashing the caller. -/
theorem readFile_nonarray_crash :
    readFile (some "42") = JVal.num 42 ∧
    findMany "d" "users" [] [("d/users.json", "42")]
      = (.error (.typeError "filter: data must be an array."), [.read "d/users.json"]) :=
  ⟨rfl, rfl⟩

/-- C3 (amended): `readFile` returns the empty sequence when the backing
file does not exist; content that fails to parse is logged and read as the
empty sequence, so the caller is not crashed; but content that parses to a
non-array value is returned unchanged, and the caller's subsequent `filter`
call then throws a `TypeError`. -/
theorem readFile_spec (s : String) (v : JVal) :
    readFile none = .arr [] ∧
    (parseJson s = none → readFile (some s) = .arr []) ∧
    (parseJson s = some v → readFile (some s) = v) ∧
    (∀ (dir coll : String) (criteria : List (String × JVal)) (fs : FS),
      validateAlphabetical coll = true →
      (∀ xs, readFile (fsRead fs (collectionPath dir coll)) ≠ JVal.arr xs) →
      (findMany dir coll criteria fs).1
        = .error (.typeError "filter: data must be an array.")) := by
  refine ⟨rfl, ?_, ?_, ?_⟩
  · intro h
    simp [readFile, h]
  · intro h
    simp [readFile, h]
  · intro dir coll criteria fs hname hnot
    cases hdata : readFile (fsRead fs (collectionPath dir coll)) with
    | arr xs => exact absurd hdata (hnot xs)
    | _ => simp [findMany, hname, wfilter, hdata]

/-- Witness for `readFile_spec`: the parse hypothesis holds at the content
`42`, which is read back verbatim as a non-array. -/
theorem readFile_spec_witness :
    parseJson "42" = some (JVal.num 42) ∧ readFile (some "42") = JVal.num 42 :=
  ⟨rfl, (readFile_spec "42" (JVal.num 42)).2.2.1 rfl⟩

theorem validateDoc_error_msg (rnd : List (Fin 256)) (v : JVal) (e : JsError)
    (h : validateDoc rnd v = .error e) : ∃ m, e = .typeError m := by
  cases v with
  | obj fields =>
    simp only [validateDoc] at h
    split at h <;> simp at h
  | null => simp only [validateDoc, Except.error.injEq] at h; exact ⟨_, h.symm⟩
  | undefined => simp only [validateDoc, Except.error.injEq] at h; exact ⟨_, h.symm⟩
  | bool b => simp only [validateDoc, Except.error.injEq] at h; exact ⟨_, h.symm⟩
  | num n => simp only [validateDoc, Except.error.injEq] at h; exact ⟨_, h.symm⟩
  | str s => simp only [validateDoc, Except.error.injEq] at h; exact ⟨_, h.symm⟩
  | arr l => simp only [validateDoc, Except.error.injEq] at h; exact ⟨_, h.symm⟩

theorem jsPush_error_msg (data v : JVal) (e : JsError)
    (h : jsPush data v = .error e) : ∃ m, e = .typeError m := by
  cases data <;> simp only [jsPush, Except.error.injEq] at h <;>
    first
      | exact ⟨_, h.symm⟩
      | exact absurd h (by simp)

theorem insertManyLoop_error_msg (rnds : Nat → List (Fin 256)) :
    ∀ (docs : List JVal) (i : Nat) (data : JVal) (e : JsError),
    insertManyLoop rnds i docs data = .error e → ∃ m, e = .typeError m := by
  intro docs
  induction docs with
  | nil => intro i data e h; simp [insertManyLoop] at h
  | cons d rest ih =>
    intro i data e h
    simp only [insertManyLoop] at h
    cases hvd : validateDoc (rnds i) d with
    | error e2 =>
      simp only [hvd] at h
      obtain rfl : e2 = e := by simpa using h
      exact validateDoc_error_msg _ _ _ hvd
    | ok d2 =>
      simp only [hvd] at h
      cases hp : jsPush data d2 with
      | error e3 =>
        simp only [hp] at h
        obtain rfl : e3 = e := by simpa using h
        exact jsPush_error_msg _ _ _ hp
      | ok data2 =>
        simp only [hp] at h
        exact ih (i + 1) data2 e h

theorem wfilter_error_msg (data : JVal) (criteria : List (String × JVal)) (e : JsError)
    (h : wfilter data criteria = .error e) : ∃ m, e = .typeError m := by
  cases data <;> simp only [wfilter, Except.error.injEq] at h <;>
    first
      | exact ⟨_, h.symm⟩
      | exact absurd h (by simp)

theorem wupdate_error_msg (data : JVal) (criteria : List (String × JVal)) (updates : JVal)
    (e : JsError) (h : wupdate data criteria updates = .error e) : ∃ m, e = .typeError m := by
  cases data with
  | arr xs =>
    cases updates <;> simp only [wupdate, Except.error.injEq] at h <;>
      first
        | exact ⟨_, h.symm⟩
        | exact absurd h (by simp)
  | _ => first
      | (simp only [wupdate, Except.error.injEq] at h; exact ⟨_, h.symm⟩)

theorem werase_error_msg (data : JVal) (criteria : List (String × JVal)) (e : JsError)
    (h : werase data criteria = .error e) : ∃ m, e = .typeError m := by
  cases data <;> simp only [werase, Except.error.injEq] at h <;>
    first
      | exact ⟨_, h.symm⟩
      | exact absurd h (by simp)

/-- Every operation rejects an invalid collection name with the collection
error, before any collection-file access. -/
theorem ops_reject_invalid_name (dir s : String) (doc docs id updates : JVal)
    (criteria : List (String × JVal)) (rnd : List (Fin 256))
    (rnds : Nat → List (Fin 256)) (fs : FS)
    (hname : validateAlphabetical s = false) :
    insertOne dir s doc rnd fs = (.error .collectionError, []) ∧
    insertMany dir s docs rnds fs = (.error .collectionError, []) ∧
    findById dir s id fs = (.error .collectionError, []) ∧
    findMany dir s criteria fs = (.error .collectionError, []) ∧
    findOne dir s criteria fs = (.error .collectionError, []) ∧
    updateById dir s id updates fs = (.error .collectionError, []) ∧
    updateWhere dir s criteria updates fs = (.error .collectionError, []) ∧
    deleteWhere dir s criteria fs = (.error .collectionError, []) ∧
    deleteById dir s id fs = (.error .collectionError, []) := by
  refine ⟨?_, ?_, ?_, ?_, ?_, ?_, ?_, ?_, ?_⟩ <;>
    simp [insertOne, insertMany, findById, findMany, findOne, updateById, updateWhere,
      deleteWhere, deleteById, hname]

/-- With a valid collection name, no operation raises the collection error:
every later failure is a `TypeError`. -/
theorem ops_accept_valid_name (dir s : String) (doc docs id updates : JVal)
    (criteria : List (String × JVal)) (rnd : List (Fin 256))
    (rnds : Nat → List (Fin 256)) (fs : FS)
    (hname : validateAlphabetical s = true) :
    (insertOne dir s doc rnd fs).1 ≠ .error .collectionError ∧
    (insertMany dir s docs rnds fs).1 ≠ .error .collectionError ∧
    (findById dir s id fs).1 ≠ .error .collectionError ∧
    (findMany dir s criteria fs).1 ≠ .error .collectionError ∧
    (findOne dir s criteria fs).1 ≠ .error .collectionError ∧
    (updateById dir s id updates fs).1 ≠ .error .collectionError ∧
    (updateWhere dir s criteria updates fs).1 ≠ .error .collectionError ∧
    (deleteWhere dir s criteria fs).1 ≠ .error .collectionError ∧
    (deleteById dir s id fs).1 ≠ .error .collectionError := by
  refine ⟨?_, ?_, ?_, ?_, ?_, ?_, ?_, ?_, ?_⟩
  · simp only [insertOne, hname, Bool.not_true, Bool.false_eq_true, if_false]
    split
    · simp
    · split
      · rename_i e heq
        obtain ⟨m, rfl⟩ := validateDoc_error_msg _ _ _ heq
        simp
      · split
        · rename_i e heq
          obtain ⟨m, rfl⟩ := jsPush_error_msg _ _ _ heq
          simp
        · simp
  · simp only [insertMany, hname, Bool.not_true, Bool.false_eq_true, if_false]
    split
    · rename_i ds
      split
      · simp
      · split
        · rename_i e heq
          obtain ⟨m, rfl⟩ := insertManyLoop_error_msg _ _ _ _ _ heq
          simp
        · simp
    · simp
  · simp only [findById, hname, Bool.not_true, Bool.false_eq_true, if_false]
    split
    · rename_i e heq
      obtain ⟨m, rfl⟩ := wfilter_error_msg _ _ _ heq
      simp
    · simp
  · simp only [findMany, hname, Bool.not_true, Bool.false_eq_true, if_false]
    split
    · rename_i e heq
      obtain ⟨m, rfl⟩ := wfilter_error_msg _ _ _ heq
      simp
    · simp
  · simp only [findOne, hname, Bool.not_true, Bool.false_eq_true, if_false]
    split
    · rename_i e heq
      obtain ⟨m, rfl⟩ := wfilter_error_msg _ _ _ heq
      simp
    · simp
  · simp only [updateById, hname, Bool.not_true, Bool.false_eq_true, if_false]
    split
    · rename_i e heq
      obtain ⟨m, rfl⟩ := wupdate_error_msg _ _ _ _ heq
      simp
    · simp
  · simp only [updateWhere, hname, Bool.not_true, Bool.false_eq_true, if_false]
    split
    · rename_i e heq
      obtain ⟨m, rfl⟩ := wupdate_error_msg _ _ _ _ heq
      simp
    · simp
  · simp only [deleteWhere, hname, Bool.not_true, Bool.false_eq_true, if_false]
    split
    · rename_i e heq
      obtain ⟨m, rfl⟩ := werase_error_msg _ _ _ heq
      simp
    · simp
  · simp only [deleteById, hname, Bool.not_true, Bool.false_eq_true, if_false]
    split
    · rename_i e heq
      obtain ⟨m, rfl⟩ := werase_error_msg _ _ _ heq
      simp
    · simp

/-- The value is an array. -/
def isArr : JVal → Bool
  | .arr _ => true
  | _ => false

/-- C9: a collection name is accepted exactly when it is a non-empty string
of ASCII letters; the empty string and names containing digits, underscores,
hyphens, dots, spaces, path separators or any other character are rejected
by every public operation with the collection error, before any filesystem
access, while an accepted name never produces that error. -/
theorem collectionName_spec (s : String) :
    (validateAlphabetical s = true ↔ s ≠ "" ∧ ∀ c ∈ s.data, isAsciiLetter c = true) ∧
    (validateAlphabetical "" = false ∧ validateAlphabetical "user1" = false ∧
      validateAlphabetical "my_coll" = false ∧ validateAlphabetical "a-b" = false ∧
      validateAlphabetical "a.b" = false ∧ validateAlphabetical "a b" = false ∧
      validateAlphabetical "a/b" = false ∧ validateAlphabetical "users" = true) ∧
    (∀ (dir : String) (doc docs id updates : JVal) (criteria : List (String × JVal))
        (rnd : List (Fin 256)) (rnds : Nat → List (Fin 256)) (fs : FS),
      (validateAlphabetical s = false →
        insertOne dir s doc rnd fs = (.error .collectionError, []) ∧
        insertMany dir s docs rnds fs = (.error .collectionError, []) ∧
        findById dir s id fs = (.error .collectionError, []) ∧
        findMany dir s criteria fs = (.error .collectionError, []) ∧
        findOne dir s criteria fs = (.error .collectionError, []) ∧
        updateById dir s id updates fs = (.error .collectionError, []) ∧
        updateWhere dir s criteria updates fs = (.error .collectionError, []) ∧
        deleteWhere dir s criteria fs = (.error .collectionError, []) ∧
        deleteById dir s id fs = (.error .collectionError, [])) ∧
      (validateAlphabetical s = true →
        (insertOne dir s doc rnd fs).1 ≠ .error .collectionError ∧
        (insertMany dir s docs rnds fs).1 ≠ .error .collectionError ∧
        (findById dir s id fs).1 ≠ .error .collectionError ∧
        (findMany dir s criteria fs).1 ≠ .error .collectionError ∧
        (findOne dir s criteria fs).1 ≠ .error .collectionError ∧
        (updateById dir s id updates fs).1 ≠ .error .collectionError ∧
        (updateWhere dir s criteria updates fs).1 ≠ .error .collectionError ∧
        (deleteWhere dir s criteria fs).1 ≠ .error .collectionError ∧
        (deleteById dir s id fs).1 ≠ .error .collectionError)) := by
  refine ⟨?_, by decide, ?_⟩
  · simp only [validateAlphabetical, Bool.and_eq_true, Bool.not_eq_true', List.all_eq_true,
      ne_eq]
    rw [Bool.eq_false_iff, ne_eq, String.isEmpty_iff]
  · intro dir doc docs id updates criteria rnd rnds fs
    exact ⟨fun hname =>
        ops_reject_invalid_name dir s doc docs id updates criteria rnd rnds fs hname,
      fun hname =>
        ops_accept_valid_name dir s doc docs id updates criteria rnd rnds fs hname⟩

/-- Witness for `collectionName_spec`: the name `a/b` is rejected by
`insertOne` before any filesystem access, and `users` is accepted. -/
theorem collectionName_spec_witness :
    validateAlphabetical "a/b" = false ∧
    insertOne "d" "a/b" (.obj []) [] [] = (.error .collectionError, []) ∧
    (insertOne "d" "users" (.obj []) [] []).1 ≠ .error .collectionError :=
  ⟨by decide,
    (((collectionName_spec "a/b").2.2 "d" (.obj []) (.obj []) .undefined .undefined [] []
        (fun _ => []) []).1 (by decide)).1,
    (((collectionName_spec "users").2.2 "d" (.obj []) (.obj []) .undefined .undefined [] []
        (fun _ => []) []).2 (by decide)).1⟩

/-- C4 counterexample: `updateById` with a non-mapping update spec (the
number 5) performs the collection-file read first and only then surfaces the
validation `TypeError` from `update`, so this validation error is not raised
before filesystem access. -/
theorem updateById_reads_before_validation :
    updateById "d" "users" (JVal.str "x") (JVal.num 5) [("d/users.json", "[]")]
      = (.error (.typeError "update: updates parameter must be a non-null object."),
         [.read "d/users.json"]) := rfl

/-- When some document in the list is not a plain object, the
validate-and-push loop of `insertMany` over array-shaped loaded data fails
with the `validateDoc` message (plain objects before the offender are
validated and pushed, keeping the data an array). -/
theorem insertManyLoop_not_plain (rnds : Nat → List (Fin 256)) :
    ∀ (ds : List JVal) (i : Nat) (xs : List JVal),
      ds.all isPlainObject = false →
      insertManyLoop rnds i ds (.arr xs)
        = .error (.typeError
            "Failed to validate document, received a non-object value.") := by
  intro ds
  induction ds with
  | nil => intro i xs h; simp at h
  | cons d rest ih =>
    intro i xs h
    cases d with
    | obj fields =>
      simp only [List.all_cons, isPlainObject, Bool.true_and] at h
      cases ht : truthy (getProp (.obj fields) "_id") with
      | true =>
        simp only [insertManyLoop, validateDoc, ht, if_true, jsPush]
        exact ih (i + 1) (xs ++ [.obj fields]) h
      | false =>
        simp only [insertManyLoop, validateDoc, ht, if_false, jsPush]
        exact ih (i + 1) (xs ++ [.obj (setKey fields "_id" (.str (randomHex (rnds i))))]) h
    | null => rfl
    | undefined => rfl
    | bool b => rfl
    | num n => rfl
    | str t => rfl
    | arr els => rfl

/-- C4 (amended): the collection-name error is raised by every operation
before any filesystem access; `insertOne` raises its document-kind
`TypeError` before any access, and `insertMany` rejects a non-array `docs`
argument, or one containing a primitive or `null` element, before any
access as well; but an array element of `docs` passes the pre-read element
guard, so `insertMany` raises the `validateDoc` error only after the
collection file has been read; similarly the update operations raise the
update-spec `TypeError` for a primitive or `null` update spec only after
the read, and for an array update spec no validation error is raised at
all (the operation reads, merges and writes).  No error case performs a
write, so the stored collection is unchanged whenever a validation error
is raised. -/
theorem validation_order_spec (dir s : String) (doc docs id updates : JVal)
    (criteria : List (String × JVal)) (rnd : List (Fin 256))
    (rnds : Nat → List (Fin 256)) (fs : FS) :
    (validateAlphabetical s = false →
      insertOne dir s doc rnd fs = (.error .collectionError, []) ∧
      insertMany dir s docs rnds fs = (.error .collectionError, []) ∧
      findById dir s id fs = (.error .collectionError, []) ∧
      findMany dir s criteria fs = (.error .collectionError, []) ∧
      findOne dir s criteria fs = (.error .collectionError, []) ∧
      updateById dir s id updates fs = (.error .collectionError, []) ∧
      updateWhere dir s criteria updates fs = (.error .collectionError, []) ∧
      deleteWhere dir s criteria fs = (.error .collectionError, []) ∧
      deleteById dir s id fs = (.error .collectionError, [])) ∧
    (validateAlphabetical s = true → isPlainObject doc = false →
      insertOne dir s doc rnd fs
        = (.error (.typeError
            "Expected an object for 'document', but received a non-object value."), [])) ∧
    (validateAlphabetical s = true → isArr docs = false →
      insertMany dir s docs rnds fs
        = (.error (.typeError "Expected an array of objects for 'docs'."), [])) ∧
    (validateAlphabetical s = true → ∀ ds, docs = .arr ds →
      ds.all isObjectLike = false →
      insertMany dir s docs rnds fs
        = (.error (.typeError "Expected an array of objects for 'docs'."), [])) ∧
    (validateAlphabetical s = true → ∀ ds, docs = .arr ds →
      ds.all isObjectLike = true → ds.all isPlainObject = false →
      ∀ xs, readFile (fsRead fs (collectionPath dir s)) = .arr xs →
      insertMany dir s docs rnds fs
        = (.error (.typeError
            "Failed to validate document, received a non-object value."),
           [.read (collectionPath dir s)])) ∧
    (validateAlphabetical s = true → isObjectLike updates = false →
      ∀ xs, readFile (fsRead fs (collectionPath dir s)) = .arr xs →
      updateById dir s id updates fs
        = (.error (.typeError "update: updates parameter must be a non-null object."),
           [.read (collectionPath dir s)]) ∧
      updateWhere dir s criteria updates fs
        = (.error (.typeError "update: updates parameter must be a non-null object."),
           [.read (collectionPath dir s)])) ∧
    (validateAlphabetical s = true → ∀ us, updates = .arr us →
      ∀ xs, readFile (fsRead fs (collectionPath dir s)) = .arr xs →
      (∀ e, (updateById dir s id updates fs).1 ≠ .error e) ∧
      (updateById dir s id updates fs).2
        = [.read (collectionPath dir s), .write (collectionPath dir s)] ∧
      (∀ e, (updateWhere dir s criteria updates fs).1 ≠ .error e) ∧
      (updateWhere dir s criteria updates fs).2
        = [.read (collectionPath dir s), .write (collectionPath dir s)]) := by
  refine ⟨fun hname =>
      ops_reject_invalid_name dir s doc docs id updates criteria rnd rnds fs hname,
    ?_, ?_, ?_, ?_, ?_, ?_⟩
  · intro hname hdoc
    simp [insertOne, hname, hdoc]
  · intro hname hdocs
    cases docs with
    | arr ds => simp [isArr] at hdocs
    | _ => simp [insertMany, hname]
  · intro hname ds hds hall
    subst hds
    simp [insertMany, hname, hall]
  · intro hname ds hds hall hsome xs hdata
    subst hds
    simp [insertMany, hname, hall, hdata,
      insertManyLoop_not_plain rnds ds 0 xs hsome]
  · intro hname hupd xs hdata
    have hw : wupdate (JVal.arr xs) [("_id", id)] updates
        = .error (.typeError "update: updates parameter must be a non-null object.") := by
      cases updates <;> simp_all [wupdate, isObjectLike]
    have hw2 : wupdate (JVal.arr xs) criteria updates
        = .error (.typeError "update: updates parameter must be a non-null object.") := by
      cases updates <;> simp_all [wupdate, isObjectLike]
    constructor
    · simp [updateById, hname, hdata, hw]
    · simp [updateWhere, hname, hdata, hw2]
  · intro hname us hus xs hdata
    subst hus
    refine ⟨fun e => ?_, ?_, fun e => ?_, ?_⟩
    · simp [updateById, hname, hdata, wupdate]
    · simp [updateById, hname, hdata, wupdate]
    · simp [updateWhere, hname, hdata, wupdate]
    · simp [updateWhere, hname, hdata, wupdate]

/-- Witness for `validation_order_spec`: with the valid name `users`, the
number 5 as update spec makes `updateById` read the (empty array) stored
collection and only then raise the update-spec `TypeError` without
writing, and the document list containing the single array element `[1]`
passes the pre-read element guard of `insertMany` and fails validation
only after the read, again without writing. -/
theorem validation_order_spec_witness :
    validateAlphabetical "users" = true ∧ isObjectLike (JVal.num 5) = false ∧
    updateById "d" "users" (JVal.str "x") (JVal.num 5) [("d/users.json", "[]")]
      = (.error (.typeError "update: updates parameter must be a non-null object."),
         [.read (collectionPath "d" "users")]) ∧
    insertMany "d" "users" (.arr [.arr [JVal.num 1]]) (fun _ => []) []
      = (.error (.typeError
          "Failed to validate document, received a non-object value."),
         [.read (collectionPath "d" "users")]) :=
  ⟨by decide, rfl,
    ((validation_order_spec "d" "users" .undefined .undefined (JVal.str "x") (JVal.num 5) []
        [] (fun _ => []) [("d/users.json", "[]")]).2.2.2.2.2.1 (by decide) rfl [] rfl).1,
    (validation_order_spec "d" "users" .undefined (.arr [.arr [JVal.num 1]]) (JVal.str "x")
        (JVal.num 5) [] [] (fun _ => []) []).2.2.2.2.1 (by decide) [.arr [JVal.num 1]] rfl
        rfl rfl [] rfl⟩

/-- C8: `findById(c, i)` computes exactly `findOne(c, {_id: i})`, filesystem
accesses included; it returns the first stored document whose `_id`
strictly equals `i`, or `undefined` when none matches, and with a valid
name and array-shaped stored data it never raises. -/
theorem findById_eq_findOne (dir coll : String) (id : JVal) (fs : FS) :
    findById dir coll id fs = findOne dir coll [("_id", id)] fs ∧
    (∀ xs, validateAlphabetical coll = true →
      readFile (fsRead fs (collectionPath dir coll)) = JVal.arr xs →
      (findById dir coll id fs).1
        = .ok (firstOrUndef (xs.filter (fun o => wmatches o [("_id", id)])))) := by
  constructor
  · rfl
  · intro xs hname hdata
    simp [findById, hname, hdata, wfilter]

/-- Witness for `findById_eq_findOne`: on an empty store with a valid name,
a lookup for a non-existent id returns `undefined` without error. -/
theorem findById_eq_findOne_witness :
    validateAlphabetical "users" = true ∧
    (findById "d" "users" (JVal.str "x") ([] : FS)).1 = .ok JVal.undefined :=
  ⟨by decide,
    by simpa [firstOrUndef] using
      (findById_eq_findOne "d" "users" (JVal.str "x") []).2 [] (by decide) rfl⟩

theorem find?_map_set_ne (k : String) (v : JVal) (key : String) (hne : key ≠ k) :
    ∀ fields : List (String × JVal),
    (fields.map (fun p => if p.1 == k then (p.1, v) else p)).find? (fun p => p.1 == key)
      = fields.find? (fun p => p.1 == key) := by
  intro fields
  induction fields with
  | nil => rfl
  | cons p ps ih =>
    have hkey : (if (p.1 == k) = true then (p.1, v) else p).1 = p.1 := by
      split <;> rfl
    simp only [List.map_cons, List.find?_cons, hkey]
    by_cases hpk : (p.1 == key) = true
    · have h2 : p.1 = key := by simpa using hpk
      have hp : (p.1 == k) = false := by
        simp [h2]
        exact hne
      simp [hpk, hp]
    · have hpk2 : (p.1 == key) = false := by simpa using hpk
      simp only [hpk2]
      exact ih

theorem find?_append_set_ne (k : String) (v : JVal) (key : String) (hne : key ≠ k) :
    ∀ fields : List (String × JVal),
    (fields ++ [(k, v)]).find? (fun p => p.1 == key) = fields.find? (fun p => p.1 == key) := by
  intro fields
  induction fields with
  | nil =>
    simp only [List.nil_append, List.find?_cons, List.find?_nil]
    have hk : ((k, v).1 == key) = false := by
      simp
      exact fun h => absurd h.symm hne
    simp [hk]
  | cons p ps ih =>
    simp only [List.cons_append, List.find?_cons]
    by_cases hpk : (p.1 == key) = true
    · simp [hpk]
    · have hpk2 : (p.1 == key) = false := by simpa using hpk
      simp only [hpk2]
      exact ih

/-- Setting one key leaves every other key unchanged. -/
theorem getProp_setKey_ne (fields : List (String × JVal)) (k : String) (v : JVal)
    (key : String) (hne : key ≠ k) :
    getProp (.obj (setKey fields k v)) key = getProp (.obj fields) key := by
  by_cases hany : fields.any (fun p => p.1 == k)
  · simp only [setKey, hany, if_true, getProp]
    rw [find?_map_set_ne k v key hne]
  · simp only [setKey, hany, Bool.false_eq_true, if_false, getProp]
    rw [find?_append_set_ne k v key hne]

theorem find?_eq_none_of_not_mem_keys {u : List (String × JVal)} {key : String}
    (h : key ∉ u.map Prod.fst) : u.find? (fun p => p.1 == key) = none := by
  induction u with
  | nil => rfl
  | cons p ps ih =>
    simp only [List.map_cons, List.mem_cons, not_or] at h
    rw [List.find?_cons]
    have hp : (p.1 == key) = false := by
      simp
      exact fun hh => h.1 hh.symm
    simp only [hp]
    exact ih h.2

/-- `Object.assign` merge semantics under distinct update keys: a key named
in the updates takes the update value, every other key keeps the target
value. -/
theorem getProp_assignFields (u : List (String × JVal)) :
    ∀ fields : List (String × JVal), (u.map Prod.fst).Nodup →
    ∀ key, getProp (.obj (assignFields fields u)) key
      = match u.find? (fun p => p.1 == key) with
        | some p => p.2
        | none => getProp (.obj fields) key := by
  induction u with
  | nil => intro fields _ key; rfl
  | cons p ps ih =>
    intro fields hu key
    simp only [List.map_cons, List.nodup_cons] at hu
    rw [show assignFields fields (p :: ps) = assignFields (setKey fields p.1 p.2) ps from rfl]
    rw [ih (setKey fields p.1 p.2) hu.2 key]
    rw [List.find?_cons]
    by_cases hpk : (p.1 == key) = true
    · have h2 : p.1 = key := by simpa using hpk
      have hnone : ps.find? (fun q => q.1 == key) = none :=
        find?_eq_none_of_not_mem_keys (by rw [← h2]; exact hu.1)
      simp only [hpk, hnone]
      rw [← h2]
      exact getProp_setKey fields p.1 p.2
    · have hpk2 : (p.1 == key) = false := by simpa using hpk
      simp only [hpk2]
      cases hfind : ps.find? (fun q => q.1 == key) with
      | some q => simp only [hfind]
      | none =>
        simp only [hfind]
        exact getProp_setKey_ne fields p.1 p.2 key
          (by intro hh; rw [hh] at hpk2; simp at hpk2)

/-- C5: with unique `_id` values, `updateById` rewrites the store with
exactly the matching document shallow-merged with the update spec: the file
is rewritten as the mapped array, its length and the position of every
document are preserved, non-matching documents are untouched, and the merge
keeps fields not named in the spec, replaces named ones and appends new
ones. -/
theorem updateById_spec (dir coll : String) (id : JVal) (u : List (String × JVal))
    (docs : List JVal) (fs : FS)
    (hname : validateAlphabetical coll = true)
    (hdata : readFile (fsRead fs (collectionPath dir coll)) = JVal.arr docs)
    (huniq : (docs.filter (fun d => wmatches d [("_id", id)])).length ≤ 1)
    (hu : (u.map Prod.fst).Nodup) :
    updateById dir coll id (.obj u) fs
      = (.ok (fsWrite fs (collectionPath dir coll) (writeFileContent (.arr (docs.map
            (fun d => if wmatches d [("_id", id)] then assignVal d u else d))))),
         [.read (collectionPath dir coll), .write (collectionPath dir coll)]) ∧
    (docs.map (fun d => if wmatches d [("_id", id)] then assignVal d u else d)).length
      = docs.length ∧
    (∀ i : Nat, wmatches (docs.getD i .undefined) [("_id", id)] = false →
      (docs.map (fun d => if wmatches d [("_id", id)] then assignVal d u else d))[i]?
        = docs[i]?) ∧
    (∀ i : Nat, ∀ hi : i < docs.length, wmatches docs[i] [("_id", id)] = true →
      (docs.map (fun d => if wmatches d [("_id", id)] then assignVal d u else d))[i]?
        = some (assignVal docs[i] u)) ∧
    (∀ (fields : List (String × JVal)) (key : String),
      getProp (assignVal (.obj fields) u) key
        = match u.find? (fun p => p.1 == key) with
          | some p => p.2
          | none => getProp (.obj fields) key) := by
  refine ⟨?_, by simp, ?_, ?_, ?_⟩
  · simp [updateById, hname, hdata, wupdate]
  · intro i hmi
    rw [List.getElem?_map]
    cases hget : docs[i]? with
    | none => rfl
    | some d =>
      have hd : docs.getD i .undefined = d := by
        simp [List.getD, hget]
      rw [hd] at hmi
      simp [hmi]
  · intro i hi hmi
    rw [List.getElem?_map, List.getElem?_eq_getElem hi]
    simp [hmi]
  · intro fields key
    exact getProp_assignFields u fields hu key

/-- Witness for `updateById_spec`: a one-document store, updated in place. -/
theorem updateById_spec_witness :
    validateAlphabetical "users" = true ∧
    readFile (fsRead [("d/users.json", "[\x7b\"_id\": \"a\", \"x\": 1\x7d]")]
        (collectionPath "d" "users"))
      = JVal.arr [.obj [("_id", JVal.str "a"), ("x", JVal.num 1)]] ∧
    updateById "d" "users" (JVal.str "a") (.obj [("x", JVal.num 2)])
        [("d/users.json", "[\x7b\"_id\": \"a\", \"x\": 1\x7d]")]
      = (.ok (fsWrite [("d/users.json", "[\x7b\"_id\": \"a\", \"x\": 1\x7d]")]
            (collectionPath "d" "users")
            (writeFileContent (.arr ([JVal.obj [("_id", JVal.str "a"), ("x", JVal.num 1)]].map
              (fun d => if wmatches d [("_id", JVal.str "a")]
                then assignVal d [("x", JVal.num 2)] else d))))),
         [.read (collectionPath "d" "users"), .write (collectionPath "d" "users")]) :=
  ⟨by decide, rfl,
    (updateById_spec "d" "users" (JVal.str "a") [("x", JVal.num 2)]
      [.obj [("_id", JVal.str "a"), ("x", JVal.num 1)]]
      [("d/users.json", "[\x7b\"_id\": \"a\", \"x\": 1\x7d]")]
      (by decide) rfl (by decide) (by decide)).1⟩

/-- C7: saving a sequence of JSON-representable documents as a collection
and loading that collection back yields exactly the same sequence. -/
theorem save_load_roundtrip (dir coll : String) (docs : List JVal) (fs : FS)
    (hname : validateAlphabetical coll = true)
    (hrep : repOk (.arr docs) = true) :
    readFile (fsRead
        (fsWrite fs (collectionPath dir coll) (writeFileContent (.arr docs)))
        (collectionPath dir coll))
      = JVal.arr docs := by
  rw [fsRead_fsWrite]
  exact readFile_writeFileContent hrep

/-- Witness for `save_load_roundtrip` on two small documents. -/
theorem save_load_roundtrip_witness :
    validateAlphabetical "users" = true ∧
    repOk (JVal.arr [.obj [("name", JVal.str "Alice")], .obj [("age", JVal.num 7)]]) = true ∧
    readFile (fsRead (fsWrite [] (collectionPath "d" "users")
        (writeFileContent
          (.arr [.obj [("name", JVal.str "Alice")], .obj [("age", JVal.num 7)]])))
        (collectionPath "d" "users"))
      = JVal.arr [.obj [("name", JVal.str "Alice")], .obj [("age", JVal.num 7)]] :=
  ⟨by decide, by simp [repOk, repOkItems, repOkFields],
    save_load_roundtrip "d" "users"
      [.obj [("name", JVal.str "Alice")], .obj [("age", JVal.num 7)]] [] (by decide)
      (by simp [repOk, repOkItems, repOkFields])⟩

theorem find?_key_of_mem_nodup : ∀ {u : List (String × JVal)} {k : String} {v : JVal},
    (u.map Prod.fst).Nodup → (k, v) ∈ u → u.find? (fun p => p.1 == k) = some (k, v) := by
  intro u
  induction u with
  | nil =>
    intro k v _ hmem
    simp at hmem
  | cons p ps ih =>
    intro k v hu hmem
    simp only [List.map_cons, List.nodup_cons] at hu
    rw [List.find?_cons]
    rcases List.mem_cons.mp hmem with heq | hmem2
    · rw [← heq]
      simp
    · have hk : k ∈ ps.map Prod.fst := List.mem_map.mpr ⟨(k, v), hmem2, rfl⟩
      have hp : (p.1 == k) = false := by
        simp
        intro hh
        rw [hh] at hu
        exact hu.1 hk
      simp only [hp]
      exact ih hu.2 hmem2

/-- C10: `update` applies the update spec verbatim, `_id` included: it maps
every matching document through the shallow merge, the merged `_id` of any
matching object document is exactly the spec's value, and no uniqueness is
re-established — updating an entire two-document collection with
`{_id: "x"}` stores both documents with `_id` `"x"`. -/
theorem update_id_verbatim :
    (∀ (data : List JVal) (criteria : List (String × JVal))
        (u : List (String × JVal)) (idv : JVal),
      (u.map Prod.fst).Nodup → ("_id", idv) ∈ u →
      wupdate (.arr data) criteria (.obj u)
        = .ok (.arr (data.map (fun o => if wmatches o criteria then assignVal o u else o))) ∧
      ∀ fields : List (String × JVal),
        getProp (assignVal (.obj fields) u) "_id" = idv) ∧
    updateWhere "d" "users" [] (.obj [("_id", JVal.str "x")])
        [("d/users.json", "[\x7b\"_id\": \"a\"\x7d, \x7b\"_id\": \"b\"\x7d]")]
      = (.ok (fsWrite [("d/users.json", "[\x7b\"_id\": \"a\"\x7d, \x7b\"_id\": \"b\"\x7d]")]
            (collectionPath "d" "users")
            (writeFileContent
              (.arr [.obj [("_id", JVal.str "x")], .obj [("_id", JVal.str "x")]]))),
         [.read (collectionPath "d" "users"), .write (collectionPath "d" "users")]) := by
  constructor
  · intro data criteria u idv hu hmem
    refine ⟨by simp [wupdate], ?_⟩
    intro fields
    rw [show assignVal (.obj fields) u = .obj (assignFields fields u) from rfl]
    rw [getProp_assignFields u fields hu "_id"]
    rw [find?_key_of_mem_nodup hu hmem]
  · rfl

/-- Witness for `update_id_verbatim`: merging `{_id: "x"}` into a document
with a different `_id` replaces it verbatim. -/
theorem update_id_verbatim_witness :
    ([("_id", JVal.str "x")].map Prod.fst).Nodup ∧
    getProp (assignVal (.obj [("_id", JVal.str "a")]) [("_id", JVal.str "x")]) "_id"
      = JVal.str "x" :=
  ⟨by decide,
    ((update_id_verbatim.1 [] [] [("_id", JVal.str "x")] (JVal.str "x")
      (by decide) (by simp)).2 [("_id", JVal.str "a")])⟩

/-- The identifier assigned from eight zero bytes. -/
def famId : JVal := .str (randomHex (List.replicate 8 0))

/-- The five family documents of the repository's test scenario. -/
def famDocs : List JVal :=
  [.obj [("name", .str "Alice"), ("age", .num 35), ("relation", .str "mother"),
      ("occupation", .str "Teacher")],
   .obj [("name", .str "Ben"), ("age", .num 37), ("relation", .str "father"),
      ("occupation", .str "Engineer")],
   .obj [("name", .str "Olivia"), ("age", .num 10), ("relation", .str "daughter"),
      ("occupation", .str "Student")],
   .obj [("name", .str "Liam"), ("age", .num 7), ("relation", .str "son"),
      ("occupation", .str "Student")],
   .obj [("name", .str "Max"), ("age", .num 4), ("relation", .str "son"),
      ("occupation", .str "Preschooler")]]

/-- The scenario's random source: eight zero bytes for every insertion. -/
def famRnds : Nat → List (Fin 256) := fun _ => List.replicate 8 0

/-- The five family documents after identity assignment. -/
def famDocsIds : List JVal :=
  [.obj [("name", .str "Alice"), ("age", .num 35), ("relation", .str "mother"),
      ("occupation", .str "Teacher"), ("_id", famId)],
   .obj [("name", .str "Ben"), ("age", .num 37), ("relation", .str "father"),
      ("occupation", .str "Engineer"), ("_id", famId)],
   .obj [("name", .str "Olivia"), ("age", .num 10), ("relation", .str "daughter"),
      ("occupation", .str "Student"), ("_id", famId)],
   .obj [("name", .str "Liam"), ("age", .num 7), ("relation", .str "son"),
      ("occupation", .str "Student"), ("_id", famId)],
   .obj [("name", .str "Max"), ("age", .num 4), ("relation", .str "son"),
      ("occupation", .str "Preschooler"), ("_id", famId)]]

/-- The four family documents remaining after deleting Liam. -/
def famKept : List JVal :=
  [.obj [("name", .str "Alice"), ("age", .num 35), ("relation", .str "mother"),
      ("occupation", .str "Teacher"), ("_id", famId)],
   .obj [("name", .str "Ben"), ("age", .num 37), ("relation", .str "father"),
      ("occupation", .str "Engineer"), ("_id", famId)],
   .obj [("name", .str "Olivia"), ("age", .num 10), ("relation", .str "daughter"),
      ("occupation", .str "Student"), ("_id", famId)],
   .obj [("name", .str "Max"), ("age", .num 4), ("relation", .str "son"),
      ("occupation", .str "Preschooler"), ("_id", famId)]]

/-- C6: `erase` removes exactly the matching documents, keeping the
remaining ones in their stored order (the result is the negated filter and a
sublist of the input); and in the repository's scenario — five documents
inserted into an empty store, then `delete {name: "Liam"}` — exactly the one
matching document is removed and `findMany` afterwards returns the four
remaining documents in order. -/
theorem delete_spec :
    (∀ (xs : List JVal) (criteria : List (String × JVal)),
      werase (.arr xs) criteria
        = .ok (.arr (xs.filter (fun o => !wmatches o criteria))) ∧
      (xs.filter (fun o => !wmatches o criteria)).Sublist xs ∧
      (∀ o, o ∈ xs.filter (fun o => !wmatches o criteria) ↔
        o ∈ xs ∧ wmatches o criteria = false)) ∧
    insertMany "db" "fam" (.arr famDocs) famRnds []
      = (.ok [(collectionPath "db" "fam", writeFileContent (.arr famDocsIds))],
         [.read (collectionPath "db" "fam"), .write (collectionPath "db" "fam")]) ∧
    deleteWhere "db" "fam" [("name", JVal.str "Liam")]
        [(collectionPath "db" "fam", writeFileContent (.arr famDocsIds))]
      = (.ok [(collectionPath "db" "fam", writeFileContent (.arr famKept))],
         [.read (collectionPath "db" "fam"), .write (collectionPath "db" "fam")]) ∧
    (findMany "db" "fam" []
        [(collectionPath "db" "fam", writeFileContent (.arr famKept))]).1
      = .ok famKept ∧
    famKept.length = 4 ∧
    famKept = famDocsIds.filter (fun o => !wmatches o [("name", JVal.str "Liam")]) := by
  have hfoldr : ∀ (xs : List JVal) (criteria : List (String × JVal)),
      xs.foldr (fun o acc => if wmatches o criteria then acc else o :: acc) []
        = xs.filter (fun o => !wmatches o criteria) := by
    intro xs criteria
    induction xs with
    | nil => rfl
    | cons x xs ih =>
      cases h : wmatches x criteria <;>
        simp [List.foldr_cons, List.filter_cons, h, ih]
  refine ⟨?_, rfl, ?_, ?_, rfl, rfl⟩
  · intro xs criteria
    refine ⟨by simp [werase, hfoldr], List.filter_sublist xs, ?_⟩
    intro o
    simp [List.mem_filter]
  · have hload : readFile (fsRead
        [(collectionPath "db" "fam", writeFileContent (.arr famDocsIds))]
        (collectionPath "db" "fam")) = .arr famDocsIds := by
      rw [show fsRead [(collectionPath "db" "fam", writeFileContent (.arr famDocsIds))]
          (collectionPath "db" "fam") = some (writeFileContent (.arr famDocsIds)) from by
        simp [fsRead]]
      exact readFile_writeFileContent
        (by simp [famDocsIds, famId, repOk, repOkItems, repOkFields])
    have hwer : werase (.arr famDocsIds) [("name", JVal.str "Liam")]
        = .ok (.arr famKept) := rfl
    simp [deleteWhere, hload, hwer, fsWrite,
      show validateAlphabetical "fam" = true from by decide]
  · have hload : readFile (fsRead
        [(collectionPath "db" "fam", writeFileContent (.arr famKept))]
        (collectionPath "db" "fam")) = .arr famKept := by
      rw [show fsRead [(collectionPath "db" "fam", writeFileContent (.arr famKept))]
          (collectionPath "db" "fam") = some (writeFileContent (.arr famKept)) from by
        simp [fsRead]]
      exact readFile_writeFileContent
        (by simp [famKept, famId, repOk, repOkItems, repOkFields])
    have hfil : wfilter (.arr famKept) [] = .ok famKept := rfl
    simp [findMany, hload, hfil, show validateAlphabetical "fam" = true from by decide]
